import Mathlib

/-!
# Verification of the Monte Carlo fantasy-football draft simulator

A shallow embedding of the simulation core of the repository
(`backend/app.py`, `backend/main.py`, `backend/models/team.py`,
`backend/models/position.py`, `backend/models/config.py`, `models/player.py`)
together with theorems settling the specification claims.

Conventions of the embedding:
* Python floats are modelled as rationals (`ℚ`); `round` is Python's
  banker's rounding (`pyRound`), `int(...)` is truncation toward zero
  (`pyInt`), `round(x, 2)` is `round2`.
* Python exceptions are modelled with `Except Err`; each constructor of
  `Err` names the Python exception class raised at that program point.
* `random.choice` / `random.choices` draws are modelled by an oracle
  `ℕ → ℕ` consumed at successive counter values; `random.choices` only
  ever returns an element of positive weight, which is the sole property
  of it that the code relies on.
* The sklearn `LogisticRegression` classifier is an external collaborator:
  a fitted model is abstracted as a function from a pick number to the
  list of `(class label, probability)` pairs that `predict_proba` returns.
* Environment-derived configuration constants (`config.py`) are gathered
  into an explicit `Config` record whose defaults are the source defaults.
* Pydantic's numeric coercions on output models are not modelled: point
  values stay rational throughout.
-/

set_option maxRecDepth 8192

namespace FFDraft

/-- Python exception classes raised by the embedded code. -/
inductive Err where
  | keyError
  | playerNotFound
  | indexError
  | typeError
  | zeroDivision
  | valueError
  | attrError
deriving DecidableEq, Repr

/-- Environment configuration constants from `backend/models/config.py`,
with the source's default values. -/
structure Config where
  roster_size : ℕ := 12
  qb_size : ℕ := 1
  rb_size : ℕ := 2
  wr_size : ℕ := 2
  te_size : ℕ := 1
  flex_size : ℕ := 1
  dst_size : ℕ := 1
  k_size : ℕ := 1
  max_random_adjustment : ℚ := 1/10
  draft_year : ℕ := 2025
  round_size : ℕ := 14
  snake_draft : Bool := true
deriving DecidableEq, Repr

/-- The source's default configuration (no environment overrides). -/
def defaultConfig : Config := {}

/-- Python's `round` to an integer: round half to even. -/
def pyRound (q : ℚ) : ℤ :=
  let f := ⌊q⌋
  if q - f < 1/2 then f
  else if q - f > 1/2 then f + 1
  else if Even f then f else f + 1

/-- Python's `int(...)` on a float: truncation toward zero. -/
def pyInt (q : ℚ) : ℤ :=
  if 0 ≤ q then ⌊q⌋ else ⌈q⌉

/-- Python's `round(x, 2)`. -/
def round2 (q : ℚ) : ℚ :=
  (pyRound (q * 100) : ℚ) / 100

/-- `models/player.py PlayerPoints`: projected vs. actual points for one
season. -/
structure PlayerPoints where
  projected_points : ℚ
  actual_points : Option ℚ := none
deriving DecidableEq, Repr

/-- `models/player.py Player`. `points` is the dict from season year to
points; `position_tier` is `None` until tier assignment. -/
structure Player where
  name : String
  position : String
  position_tier : Option String := none
  nfl_team : String := ""
  points : List (ℕ × PlayerPoints)
  drafted : Bool := false
deriving DecidableEq, Repr

/-- The projected points of a player for a year, defaulting to 0; only
used under a guard that the year is present (where Python would have
raised a `KeyError` otherwise). -/
def projAt (p : Player) (y : ℕ) : ℚ :=
  match p.points.lookup y with
  | some pts => pts.projected_points
  | none => 0

/-- `models/player.py Players`: the player catalog, with per-position
lists, the flat `players` list and the `years` found in the catalog. -/
structure Players where
  qb : List Player := []
  rb : List Player := []
  wr : List Player := []
  te : List Player := []
  dst : List Player := []
  k : List Player := []
  players : List Player := []
  years : List ℕ := []
deriving DecidableEq, Repr

/-- The position keys of the catalog, in the source's order. -/
def positionsList : List String := ["qb", "rb", "wr", "te", "dst", "k"]

/-- `getattr(players, pos)` for the six position lists. -/
def getPosList (c : Players) (pos : String) : List Player :=
  match pos with
  | "qb" => c.qb
  | "rb" => c.rb
  | "wr" => c.wr
  | "te" => c.te
  | "dst" => c.dst
  | "k" => c.k
  | _ => []

/-- `getattr(players, pos)` with the `AttributeError` case visible. -/
def getPosList? (c : Players) (pos : String) : Option (List Player) :=
  if pos ∈ positionsList then some (getPosList c pos) else none

/-- Replace one position list of the catalog. -/
def setPosList (c : Players) (pos : String) (l : List Player) : Players :=
  match pos with
  | "qb" => { c with qb := l }
  | "rb" => { c with rb := l }
  | "wr" => { c with wr := l }
  | "te" => { c with te := l }
  | "dst" => { c with dst := l }
  | "k" => { c with k := l }
  | _ => c

/-- `backend/models/position.py PositionTiers`, instantiated from the
configuration: the two tier boundaries for each position.  The source
model has entries for all six positions, `dst` and `k` included. -/
def tierBounds (cfg : Config) (pos : String) : Option (ℚ × ℚ) :=
  match pos with
  | "qb" => some (cfg.qb_size * cfg.roster_size, cfg.qb_size * (5/2) * cfg.roster_size)
  | "rb" => some (cfg.rb_size * (1/2) * cfg.roster_size, cfg.rb_size * (5/2) * cfg.roster_size)
  | "wr" => some (cfg.wr_size * (1/2) * cfg.roster_size, cfg.wr_size * (5/2) * cfg.roster_size)
  | "te" => some (cfg.te_size * cfg.roster_size, cfg.te_size * 2 * cfg.roster_size)
  | "k" => some (cfg.k_size * cfg.roster_size, cfg.k_size * 2 * cfg.roster_size)
  | "dst" => some (cfg.dst_size * cfg.roster_size, cfg.dst_size * 2 * cfg.roster_size)
  | _ => none

/-- One position's tier assignment pass of
`Players.assign_players_to_positions` (`models/player.py`): positions
absent from `PositionTiers` get their position name as tier, the others
get a numbered tier from their rank. -/
def assignTiers (cfg : Config) (pos : String) (l : List Player) : List Player :=
  match tierBounds cfg pos with
  | none => l.map fun p => { p with position_tier := some p.position }
  | some (t1, t2) =>
      l.enum.map fun ip =>
        { ip.2 with
          position_tier := some (if (ip.1 : ℚ) < t1 then pos ++ "1"
            else if (ip.1 : ℚ) < t2 then pos ++ "2" else pos ++ "3") }

/-- Descending order on players by one year's projected points (the
comparison used by every `sorted(..., reverse=True)` in the source). -/
def byYearDesc (y : ℕ) (a b : Player) : Prop :=
  projAt b y ≤ projAt a y

instance (y : ℕ) : DecidableRel (byYearDesc y) :=
  fun a b => inferInstanceAs (Decidable (projAt b y ≤ projAt a y))

instance (y : ℕ) : IsTotal Player (byYearDesc y) :=
  ⟨fun a b => le_total (projAt b y) (projAt a y)⟩

instance (y : ℕ) : IsTrans Player (byYearDesc y) :=
  ⟨fun _ _ _ hab hbc => le_trans hbc hab⟩

/-- Sort one position list by a year's projected points, descending
(`sorted(..., key=..., reverse=True)`); Python's `sorted` evaluates the
key on every element, raising `KeyError` when a player lacks the year. -/
def sortPosByYear (l : List Player) (y : ℕ) : Except Err (List Player) :=
  if l.all (fun p => (p.points.lookup y).isSome) then
    .ok (l.insertionSort (byYearDesc y))
  else .error .keyError

/-- One iteration of the year loop of `assign_players_to_positions`:
re-sort every position list by this year's projections, then assign
position tiers from the resulting ranks (the source loops over the fixed
position list twice; the loops are unrolled here). -/
def yearStep (cfg : Config) (c : Players) (y : ℕ) : Except Err Players :=
  match sortPosByYear c.qb y, sortPosByYear c.rb y, sortPosByYear c.wr y,
      sortPosByYear c.te y, sortPosByYear c.dst y, sortPosByYear c.k y with
  | .ok lqb, .ok lrb, .ok lwr, .ok lte, .ok ldst, .ok lk =>
    .ok { c with
      qb := assignTiers cfg "qb" lqb
      rb := assignTiers cfg "rb" lrb
      wr := assignTiers cfg "wr" lwr
      te := assignTiers cfg "te" lte
      dst := assignTiers cfg "dst" ldst
      k := assignTiers cfg "k" lk }
  | .error e, _, _, _, _, _ => .error e
  | _, .error e, _, _, _, _ => .error e
  | _, _, .error e, _, _, _ => .error e
  | _, _, _, .error e, _, _ => .error e
  | _, _, _, _, .error e, _ => .error e
  | _, _, _, _, _, .error e => .error e

/-- `sorted(list(set(...)))` over all years of all players. -/
def collectYears (input : List Player) : List ℕ :=
  ((input.map fun p => p.points.map Prod.fst).flatten.dedup).insertionSort (· ≤ ·)

/-- In Python the position lists alias the objects of the `players` list,
so tiers assigned in a position list are visible through `players`; with
distinct player names this resolves each player to its tiered twin. -/
def aliasTier (c : Players) (p : Player) : Player :=
  match getPosList? c p.position with
  | none => p
  | some l =>
      match l.find? (fun q => q.name == p.name) with
      | some q => q
      | none => p

/-- Constructing `Players(players=...)`: the model validator
`Players.assign_players_to_positions` of `models/player.py`.  Collects
the years, buckets players by position, then for each year sorts every
position list by that year's projected points and assigns tiers. -/
def mkPlayers (cfg : Config) (input : List Player) : Except Err Players :=
  let years := collectYears input
  let c0 : Players := {
    qb := input.filter fun p => p.position == "qb"
    rb := input.filter fun p => p.position == "rb"
    wr := input.filter fun p => p.position == "wr"
    te := input.filter fun p => p.position == "te"
    dst := input.filter fun p => p.position == "dst"
    k := input.filter fun p => p.position == "k"
    players := input
    years := years }
  match years.foldlM (yearStep cfg) c0 with
  | .error e => .error e
  | .ok c => .ok { c with players := c.players.map (aliasTier c) }

/-- `backend/models/position.py PositionTierDistributions`: the empirical
adjustment lists, keyed by tier label (three tiers for qb/rb/wr/te). -/
structure PositionTierDistributions where
  qb1 : List ℚ := []
  qb2 : List ℚ := []
  qb3 : List ℚ := []
  rb1 : List ℚ := []
  rb2 : List ℚ := []
  rb3 : List ℚ := []
  wr1 : List ℚ := []
  wr2 : List ℚ := []
  wr3 : List ℚ := []
  te1 : List ℚ := []
  te2 : List ℚ := []
  te3 : List ℚ := []
deriving DecidableEq, Repr

/-- `distributions.model_dump().get(tier, None)`: dictionary lookup with
`None` default; a `None` tier key is also absent. -/
def distGet (d : PositionTierDistributions) (tier : Option String) : Option (List ℚ) :=
  match tier with
  | none => none
  | some t =>
    match t with
    | "qb1" => some d.qb1
    | "qb2" => some d.qb2
    | "qb3" => some d.qb3
    | "rb1" => some d.rb1
    | "rb2" => some d.rb2
    | "rb3" => some d.rb3
    | "wr1" => some d.wr1
    | "wr2" => some d.wr2
    | "wr3" => some d.wr3
    | "te1" => some d.te1
    | "te2" => some d.te2
    | "te3" => some d.te3
    | _ => none

/-- `backend/models/position.py PositionMaxPoints`. -/
structure PositionMaxPoints where
  qb : ℚ := 0
  rb : ℚ := 0
  wr : ℚ := 0
  te : ℚ := 0
  dst : ℚ := 0
  k : ℚ := 0
deriving DecidableEq, Repr

/-- `max_points.model_dump()[pos]`: dictionary indexing, `KeyError` when
the position is not one of the six. -/
def maxGet (m : PositionMaxPoints) (pos : String) : Option ℚ :=
  match pos with
  | "qb" => some m.qb
  | "rb" => some m.rb
  | "wr" => some m.wr
  | "te" => some m.te
  | "dst" => some m.dst
  | "k" => some m.k
  | _ => none

/-- `PositionSizes` (`backend/models/position.py`) as a lookup into the
configuration; `model_dump()` iterates the fields in declaration order. -/
def sizesKeys : List String := ["qb", "rb", "wr", "te", "flex", "dst", "k"]

/-- The starter-slot capacity of one `PositionSizes` field. -/
def sizeFor (cfg : Config) (pos : String) : ℕ :=
  match pos with
  | "qb" => cfg.qb_size
  | "rb" => cfg.rb_size
  | "wr" => cfg.wr_size
  | "te" => cfg.te_size
  | "flex" => cfg.flex_size
  | "dst" => cfg.dst_size
  | "k" => cfg.k_size
  | _ => 0

/-- The output of `fill_starters` (`backend/models/team.py`): the starter
lists per position, the flex picks and the combined starters list. -/
structure FillOut where
  qb : List Player := []
  rb : List Player := []
  wr : List Player := []
  te : List Player := []
  flex : List Player := []
  dst : List Player := []
  k : List Player := []
  starters : List Player := []
deriving DecidableEq, Repr

/-- The primary selection of `fill_starters` for one `PositionSizes` key:
the position's rostered players sorted by the draft year's projected
points descending, truncated to the slot capacity. -/
def primarySel (cfg : Config) (roster : List Player) (pos : String) : List Player :=
  ((roster.filter fun p => p.position == pos).insertionSort
    (byYearDesc cfg.draft_year)).take (sizeFor cfg pos)

/-- The `not_flex` accumulator of `fill_starters`: every primary
selection, over the `PositionSizes` keys in field order. -/
def notFlexList (cfg : Config) (roster : List Player) : List Player :=
  sizesKeys.flatMap fun pos => primarySel cfg roster pos

/-- The flex candidates of `fill_starters`: rostered rb/wr/te players not
already selected as primary starters (Python compares player dicts by
value). -/
def flexCandidates (cfg : Config) (roster : List Player) : List Player :=
  roster.filter fun p =>
    (p.position == "rb" || p.position == "wr" || p.position == "te")
      && !((notFlexList cfg roster).contains p)

/-- The flex selection of `fill_starters`: best remaining flex candidates
by the draft year's projected points. -/
def flexSel (cfg : Config) (roster : List Player) : List Player :=
  ((flexCandidates cfg roster).insertionSort
    (byYearDesc cfg.draft_year)).take cfg.flex_size

/-- `fill_starters(roster)` of `backend/models/team.py`.  Sorting keys
access `points[DRAFT_YEAR]`, so a rostered player of one of the
`PositionSizes` positions (or of rb/wr/te) lacking the draft year raises
`KeyError`.  The `starters` union iterates a Python set; we fix one
order, which only affects list order, not membership. -/
def fill_starters (cfg : Config) (roster : List Player) : Except Err FillOut :=
  if roster.all (fun p =>
      !(sizesKeys.contains p.position) || (p.points.lookup cfg.draft_year).isSome) then
    .ok {
      qb := primarySel cfg roster "qb"
      rb := primarySel cfg roster "rb"
      wr := primarySel cfg roster "wr"
      te := primarySel cfg roster "te"
      dst := primarySel cfg roster "dst"
      k := primarySel cfg roster "k"
      flex := flexSel cfg roster
      starters := primarySel cfg roster "qb" ++ primarySel cfg roster "rb"
        ++ primarySel cfg roster "wr" ++ primarySel cfg roster "te"
        ++ primarySel cfg roster "dst" ++ primarySel cfg roster "k" ++ flexSel cfg roster }
  else .error .keyError

/-- `backend/models/team.py Team`.  The starter lists are derived from the
roster by the `autofill_starters` validator at construction. -/
structure Team where
  name : String
  owner : String
  simulator : Bool := false
  draft_order : ℕ
  roster : List Player := []
  starters : List Player := []
  qb : List Player := []
  rb : List Player := []
  wr : List Player := []
  te : List Player := []
  flex : List Player := []
  dst : List Player := []
  k : List Player := []
deriving DecidableEq, Repr

/-- Constructing `Team(...)`: the `autofill_starters` validator fills the
starter lists from the roster via `fill_starters`; an empty roster leaves
every derived list empty (the fresh-construction case of the validator's
early return). -/
def mkTeam (cfg : Config) (name owner : String) (simulator : Bool) (slot : ℕ)
    (roster : List Player) : Except Err Team :=
  if roster = [] then
    .ok { name := name, owner := owner, simulator := simulator, draft_order := slot }
  else
    match fill_starters cfg roster with
    | .error e => .error e
    | .ok out =>
      .ok { name := name, owner := owner, simulator := simulator, draft_order := slot,
            roster := roster, starters := out.starters, qb := out.qb, rb := out.rb,
            wr := out.wr, te := out.te, flex := out.flex, dst := out.dst, k := out.k }

/-- `getattr(team, pos)` for the six starting-position lists. -/
def getTeamPos (t : Team) (pos : String) : List Player :=
  match pos with
  | "qb" => t.qb
  | "rb" => t.rb
  | "wr" => t.wr
  | "te" => t.te
  | "dst" => t.dst
  | "k" => t.k
  | _ => []

/-- `backend/models/team.py League`.  Persistence-only fields (`created`,
`name`, `id`, the ready flags and the raw regression variables) are not
needed by any claim and are omitted; the fitted opponent model is passed
to the simulation functions directly. -/
structure League where
  teams : List Team
  snake_draft : Bool := true
  draft_order : List ℕ := []
  draft_results : List Team := []
  current_draft_turn : ℕ := 0
  players : Players := {}
  position_tier_distributions : PositionTierDistributions := {}
  position_max_points : PositionMaxPoints := {}
deriving DecidableEq, Repr

/-- Constructing `League(...)`: the
`sort_by_draft_order_and_validate_ready_to_draft` validator sorts the
teams by draft slot and expands the per-round draft order, reversing odd
rounds when snake drafting.  `[teams.index(team) for team in teams]`
resolves each team to its first occurrence in the sorted list. -/
def mkLeague (cfg : Config) (teams : List Team) (snake : Bool) (players : Players)
    (dists : PositionTierDistributions) (maxpts : PositionMaxPoints) : League :=
  let sorted := teams.insertionSort fun a b => a.draft_order ≤ b.draft_order
  let teamIndices := sorted.map fun t => sorted.findIdx (· == t)
  let order := (List.range cfg.round_size).foldl
    (fun acc i => acc ++
      (if snake then
        if i % 2 = 0 then teamIndices else teamIndices.reverse
      else teamIndices)) []
  { teams := sorted, snake_draft := snake, draft_order := order,
    players := players, position_tier_distributions := dists,
    position_max_points := maxpts }

/-- `League.add_player_to_current_draft_turn_team` of
`backend/models/team.py`: append the player to the roster of the team at
the head of the draft order, rebuild that team (recomputing starters),
record it in `draft_results`, advance the turn and pop the order queue. -/
def add_player_to_current_draft_turn_team (cfg : Config) (league : League)
    (player : Player) : Except Err League :=
  match league.draft_order with
  | [] => .error .indexError
  | ti :: rest =>
    match league.teams.get? ti with
    | none => .error .indexError
    | some team =>
      match mkTeam cfg team.name team.owner team.simulator team.draft_order
          (team.roster ++ [player]) with
      | .error e => .error e
      | .ok team2 =>
        .ok { league with
          teams := league.teams.set ti team2
          draft_results := league.draft_results ++ [team2]
          current_draft_turn := league.current_draft_turn + 1
          draft_order := rest }

/-- Replace the first player of the list carrying this name by a copy
whose `drafted` flag is set (the catalog update loop of `draft_player`
in `backend/app.py`); a missing name means `player_index` is `None` and
the Python indexing raises `TypeError`. -/
def markFirstDrafted (l : List Player) (name : String) : Except Err (List Player) :=
  match l with
  | [] => .error .typeError
  | q :: rest =>
    if q.name == name then .ok ({ q with drafted := true } :: rest)
    else (markFirstDrafted rest name).map (q :: ·)

/-- `draft_player(player_name, league)` of `backend/app.py`: look the
player up by name in the catalog (404 `PlayerNotFound` when absent — with
no check of the drafted flag), replace the catalog entries (flat list and
position list) with drafted copies, then hand the originally found player
object to `add_player_to_current_draft_turn_team`. -/
def draft_player (cfg : Config) (name : String) (league : League) : Except Err League :=
  match league.players.players.filter (fun p => p.name == name) with
  | [] => .error .playerNotFound
  | p :: _ =>
    match markFirstDrafted league.players.players name with
    | .error e => .error e
    | .ok pl =>
      let cat1 := { league.players with players := pl }
      if p.position ∈ positionsList then
        match markFirstDrafted (getPosList cat1 p.position) name with
        | .error e => .error e
        | .ok lp =>
          add_player_to_current_draft_turn_team cfg
            { league with players := setPosList cat1 p.position lp } p
      else
        add_player_to_current_draft_turn_team cfg { league with players := cat1 } p

/-- A fitted opponent model, abstracting sklearn's `LogisticRegression`:
for a pick number, the `(class, probability)` pairs of `predict_proba`
in `classes_` order. -/
def OpponentModel : Type := ℕ → List (String × ℚ)

/-- The `starting_positions` list of `Team.draft_turn_position_weights`. -/
def startingPositions : List String := ["qb", "rb", "wr", "te", "dst", "k"]

/-- Whether a position's starting slots are completely filled for the
team: `len(getattr(self, position)) == ps.model_dump()[position]`. -/
def teamPosFilled (cfg : Config) (t : Team) (pos : String) : Bool :=
  (getTeamPos t pos).length == sizeFor cfg pos

/-- Python dict assignment `d[k] = v` on an association list: replace the
value at the key, appending the key when absent (dict keys are unique, so
replacing every occurrence equals replacing the one occurrence). -/
def dictSet (l : List (String × ℚ)) (key : String) (v : ℚ) : List (String × ℚ) :=
  if l.any (fun kv => kv.1 == key) then
    l.map fun kv => if kv.1 == key then (kv.1, v) else kv
  else l ++ [(key, v)]

/-- The zeroing loop of `draft_turn_position_weights`: set the weight of
every completely filled starting position to 0 (adding the key when the
classifier did not predict that position). -/
def zeroFilled (cfg : Config) (t : Team) (pw : List (String × ℚ)) : List (String × ℚ) :=
  startingPositions.foldl
    (fun acc pos => if teamPosFilled cfg t pos then dictSet acc pos 0 else acc) pw

/-- `Team.draft_turn_position_weights(pick_number, model)` of
`backend/models/team.py`: the classifier probabilities, returned raw when
every starting position is filled, otherwise with filled positions zeroed
and the rest renormalized — a zero total is an unguarded
`ZeroDivisionError`. -/
def draft_turn_position_weights (cfg : Config) (t : Team) (pick_number : ℕ)
    (model : OpponentModel) : Except Err (List (String × ℚ)) :=
  let position_weights := model pick_number
  let starting_filled :=
    (startingPositions.filter fun pos => teamPosFilled cfg t pos).length
  if starting_filled = startingPositions.length then
    .ok position_weights
  else
    let pw := zeroFilled cfg t position_weights
    let total := (pw.map (fun kv => kv.2)).sum
    if total = 0 then .error .zeroDivision
    else .ok (pw.map fun kv => (kv.1, kv.2 / total))

/-- The undrafted players of one catalog position list. -/
def undraftedIn (l : List Player) : List Player :=
  l.filter fun x => x.drafted == false

/-- The sampling loop of `simulate_pick`: draw a position by weight
(`random.choices` returns an element of positive weight, `ValueError`
when the total weight is not positive), take the first undrafted player
of that position, and on exhaustion remove the position (and the first
weight equal to its weight — the source removes by value) and retry,
resetting to equal weights when the remaining weights sum to zero.  The
fuel is the number of positions, which bounds the retries. -/
def pickLoop (cat : Players) (oracle : ℕ → ℕ) :
    ℕ → List String → List ℚ → ℕ → Except Err (String × ℕ)
  | 0, _, _, _ => .error .valueError
  | fuel + 1, positions, weights, ctr =>
    match (positions.zip weights).filter (fun pv => 0 < pv.2) with
    | [] => .error .valueError
    | s :: ss =>
      let sel := ((s :: ss).get ⟨oracle ctr % (s :: ss).length,
        Nat.mod_lt _ (Nat.succ_pos ss.length)⟩).1
      match getPosList? cat sel with
      | none => .error .attrError
      | some l =>
        match undraftedIn l with
        | x :: _ => .ok (x.name, ctr + 1)
        | [] =>
          match positions.findIdx? (fun pos => pos == sel) with
          | none => .error .valueError
          | some i =>
            match weights.get? i with
            | none => .error .indexError
            | some w =>
              let weights1 := weights.erase w
              let positions1 := positions.erase sel
              let weights2 := if weights1.sum = 0 then positions1.map (fun _ => (1 : ℚ))
                else weights1
              pickLoop cat oracle fuel positions1 weights2 (ctr + 1)

/-- `simulate_pick(league, draft_pick_model)` of `backend/app.py`: weights
for the team on the clock at `current_draft_turn + 1`, keys lowercased,
then the sampling loop; returns the picked player's name. -/
def simulate_pick (cfg : Config) (league : League) (model : OpponentModel)
    (oracle : ℕ → ℕ) (ctr : ℕ) : Except Err (String × ℕ) :=
  match league.draft_order with
  | [] => .error .indexError
  | ti :: _ =>
    match league.teams.get? ti with
    | none => .error .indexError
    | some team => do
      let ws ← draft_turn_position_weights cfg team (league.current_draft_turn + 1) model
      let ws := ws.map fun kv => (kv.1.toLower, kv.2)
      pickLoop league.players oracle (ws.length + 1) (ws.map fun kv => kv.1)
        (ws.map fun kv => kv.2) ctr

/-- The body of `simulate_draft`: one simulated pick then one draft, run
`n` times (`n` snapshots the length of the draft order). -/
def simDraftAux (cfg : Config) (model : OpponentModel) (oracle : ℕ → ℕ) :
    ℕ → League → ℕ → Except Err (League × ℕ)
  | 0, lg, ctr => .ok (lg, ctr)
  | n + 1, lg, ctr => do
    let (name, ctr1) ← simulate_pick cfg lg model oracle ctr
    let lg1 ← draft_player cfg name lg
    simDraftAux cfg model oracle n lg1 ctr1

/-- `simulate_draft(league, draft_pick_model)` of `backend/app.py`. -/
def simulate_draft (cfg : Config) (league : League) (model : OpponentModel)
    (oracle : ℕ → ℕ) (ctr : ℕ) : Except Err (League × ℕ) :=
  simDraftAux cfg model oracle league.draft_order.length league ctr

/-- `models/player.py PlayerPointsRandomized` (point values kept
rational; the `adjustment` validator rounds to two decimals). -/
structure PlayerPointsRandomized where
  randomized_points : ℚ
  projected_points : ℚ
  adjustment : ℚ := 0
  exceeded_max : Bool := false
deriving DecidableEq, Repr

/-- `Player.randomized_points` of `models/player.py`: pass the projection
through unchanged when the tier has no distribution (missing key or empty
list); otherwise apply a random adjustment from the tier's distribution,
clamp above at `int(max_points[pos] * (1 + max_points_adjustment))`
(setting `exceeded_max`) and below at 0. -/
def randomized_points (player : Player) (dists : PositionTierDistributions)
    (maxpts : PositionMaxPoints) (max_points_adjustment : ℚ) (year : ℕ)
    (oracle : ℕ → ℕ) (ctr : ℕ) : Except Err (PlayerPointsRandomized × ℕ) :=
  match player.points.lookup year with
  | none => .error .keyError
  | some pts =>
    let proj := pts.projected_points
    match distGet dists player.position_tier with
    | some (a :: d) =>
      let adj := (a :: d).get ⟨oracle ctr % (a :: d).length, Nat.mod_lt _ (Nat.succ_pos d.length)⟩
      let raw : ℤ := pyRound (proj * (1 + adj))
      match maxGet maxpts player.position.toLower with
      | none => .error .keyError
      | some mp =>
        let max_allowed : ℤ := pyInt (mp * (1 + max_points_adjustment))
        if raw > max_allowed then
          .ok ({ randomized_points := max_allowed, projected_points := proj,
                 adjustment := round2 adj, exceeded_max := true }, ctr + 1)
        else if raw < 0 then
          .ok ({ randomized_points := 0, projected_points := proj,
                 adjustment := round2 adj }, ctr + 1)
        else
          .ok ({ randomized_points := raw, projected_points := proj,
                 adjustment := round2 adj }, ctr + 1)
    | _ =>
      .ok ({ randomized_points := proj, projected_points := proj }, ctr)

/-- Overwrite the projected points of one season in a player's points
dict (the roster-copy mutation of `randomized_starter_points`). -/
def setYearProj (points : List (ℕ × PlayerPoints)) (year : ℕ) (v : ℚ) :
    List (ℕ × PlayerPoints) :=
  points.map fun ypp =>
    if ypp.1 == year then (ypp.1, { ypp.2 with projected_points := v }) else ypp

/-- `Team.randomized_starter_points` of `backend/models/team.py`: on a
deep copy of the roster replace each player's projected points by a
randomized projection, refill the starters and sum their points. -/
def randomized_starter_points (cfg : Config) (t : Team)
    (dists : PositionTierDistributions) (maxpts : PositionMaxPoints) (year : ℕ)
    (oracle : ℕ → ℕ) (ctr : ℕ) : Except Err (ℚ × ℕ) := do
  let (roster1, ctr1) ← t.roster.foldlM (fun acc p => do
      let (out, c) ← randomized_points p dists maxpts cfg.max_random_adjustment year
        oracle acc.2
      pure (acc.1 ++ [{ p with points := setYearProj p.points year out.randomized_points }], c))
    (([] : List Player), ctr)
  let out ← fill_starters cfg roster1
  .ok ((out.starters.map fun p => projAt p year).sum, ctr1)

/-- The tracked candidate positions of `monte_carlo_draft`: the keys of
the `results` dict — qb/rb/wr/te always, dst and k once
`current_draft_turn > ROUND_SIZE * 7`. -/
def trackedPositions (cfg : Config) (league : League) : List String :=
  ["qb", "rb", "wr", "te"] ++
    (if league.current_draft_turn > cfg.round_size * 7 then ["dst", "k"] else [])

/-- Append a value to the score list of one key of the results dict
(`results[position].append(...)`). -/
def dictAppend (acc : List (String × List ℚ)) (key : String) (v : ℚ) :
    List (String × List ℚ) :=
  acc.map fun kv => if kv.1 == key then (kv.1, kv.2 ++ [v]) else kv

/-- One candidate-position iteration of the `monte_carlo_draft` loop
(`backend/app.py`): read the undrafted players of the position from the
authoritative league; when none remain the caller records 0, otherwise
draft the best one into a deep copy (value copy), simulate the rest of
the draft on the copy, and score the simulator team's randomized
starters.  The authoritative league is returned untouched alongside. -/
def mcIterationBody (cfg : Config) (model : OpponentModel) (oracle : ℕ → ℕ)
    (league : League) (pos : String) (ctr : ℕ) : Except Err (Option ℚ × ℕ) :=
  match getPosList? league.players pos with
  | none => .error .attrError
  | some l =>
    match undraftedIn l with
    | [] => .ok (none, ctr)
    | best :: _ =>
      let league_copy := league
      match draft_player cfg best.name league_copy with
      | .error e => .error e
      | .ok lg1 =>
        match simulate_draft cfg lg1 model oracle ctr with
        | .error e => .error e
        | .ok (lg2, ctr2) =>
          match league.teams.findIdx? (fun t => t.simulator) with
          | none => .error .indexError
          | some si =>
            match lg2.teams.get? si with
            | none => .error .indexError
            | some st =>
              match randomized_starter_points cfg st
                  league.position_tier_distributions league.position_max_points
                  cfg.draft_year oracle ctr2 with
              | .error e => .error e
              | .ok (score, ctr3) => .ok (some score, ctr3)

/-- `mcIterationBody` with the authoritative league threaded through, the
score recorded in the results dict and the iteration counter `i`
advanced only for real (non-empty) iterations. -/
def mcIteration (cfg : Config) (model : OpponentModel) (oracle : ℕ → ℕ)
    (auth : League) (pos : String) (acc : List (String × List ℚ)) (i ctr : ℕ) :
    Except Err (League × List (String × List ℚ) × ℕ × ℕ) :=
  match mcIterationBody cfg model oracle auth pos ctr with
  | .error e => .error e
  | .ok (none, ctr1) => .ok (auth, dictAppend acc pos 0, i, ctr1)
  | .ok (some s, ctr1) => .ok (auth, dictAppend acc pos s, i + 1, ctr1)

/-- One pass of the `while` loop of `monte_carlo_draft`: an iteration for
every tracked position, in order. -/
def mcPass (cfg : Config) (model : OpponentModel) (oracle : ℕ → ℕ) :
    List String → League → List (String × List ℚ) → ℕ → ℕ →
    Except Err (League × List (String × List ℚ) × ℕ × ℕ)
  | [], auth, acc, i, ctr => .ok (auth, acc, i, ctr)
  | pos :: rest, auth, acc, i, ctr =>
    match mcIteration cfg model oracle auth pos acc i ctr with
    | .error e => .error e
    | .ok (auth1, acc1, i1, ctr1) => mcPass cfg model oracle rest auth1 acc1 i1 ctr1

/-- The time-boxed `while` loop of `monte_carlo_draft`, with wall-clock
elapsing modelled as a pass count: the loop condition is checked between
passes, so a positive time budget yields at least one full pass. -/
def mcLoop (cfg : Config) (model : OpponentModel) (oracle : ℕ → ℕ)
    (tracked : List String) :
    ℕ → League → List (String × List ℚ) → ℕ → ℕ →
    Except Err (League × List (String × List ℚ) × ℕ × ℕ)
  | 0, auth, acc, i, ctr => .ok (auth, acc, i, ctr)
  | n + 1, auth, acc, i, ctr =>
    match mcPass cfg model oracle tracked auth acc i ctr with
    | .error e => .error e
    | .ok (auth1, acc1, i1, ctr1) => mcLoop cfg model oracle tracked n auth1 acc1 i1 ctr1

/-- The averaging step of `monte_carlo_draft`:
`results[position] = round(sum(...) / len(...), 2)` for every key —
a `ZeroDivisionError` when a score list is empty. -/
def mcReport : List (String × List ℚ) → Except Err (List (String × ℚ))
  | [] => .ok []
  | (key, l) :: rest =>
    if l.length = 0 then .error .zeroDivision
    else
      match mcReport rest with
      | .error e => .error e
      | .ok r => .ok ((key, round2 (l.sum / (l.length : ℚ))) :: r)

/-- `monte_carlo_draft(league, seconds)` of `backend/app.py`, the
`runMonteCarlo` of the specification: run `passes` full passes of the
loop, then average each tracked position's scores.  The second component
is the authoritative league as the call leaves it. -/
def monte_carlo_draft (cfg : Config) (league : League) (model : OpponentModel)
    (oracle : ℕ → ℕ) (passes : ℕ) :
    Except Err (List (String × ℚ) × ℕ) × League :=
  let tracked := trackedPositions cfg league
  match mcLoop cfg model oracle tracked passes league
      (tracked.map fun pos => (pos, ([] : List ℚ))) 0 0 with
  | .error e => (.error e, league)
  | .ok (auth, raw, i, _) =>
    match mcReport raw with
    | .error e => (.error e, auth)
    | .ok rep => (.ok (rep, i), auth)

/-! ### Concrete test fixtures

Small leagues, teams and catalogs used to instantiate the theorems below
at concrete inputs. -/

/-- A two-team, one-round configuration (all slot sizes 1). -/
def cfgW : Config :=
  { roster_size := 2, qb_size := 1, rb_size := 1, wr_size := 1, te_size := 1,
    flex_size := 1, dst_size := 1, k_size := 1, max_random_adjustment := 1/10,
    draft_year := 2024, round_size := 1, snake_draft := true }

/-- An undrafted player with a single season of projected points. -/
def samplePlayer (n pos : String) (pts : ℚ) : Player :=
  { name := n, position := pos, points := [(2024, { projected_points := pts })] }

/-- A small draft pool: two quarterbacks, a running back, a wide
receiver, and no tight ends. -/
def inputW : List Player :=
  [samplePlayer "QB1" "qb" 20, samplePlayer "QB2" "qb" 10,
   samplePlayer "RB1" "rb" 15, samplePlayer "WR1" "wr" 12]

/-- The simulator team (draft slot 1). -/
def teamA : Team := { name := "A", owner := "a", simulator := true, draft_order := 1 }

/-- The opponent team (draft slot 2). -/
def teamB : Team := { name := "B", owner := "b", draft_order := 2 }

/-- A fallback team value for `Option.getD`. -/
def defaultTeam : Team := { name := "", owner := "", draft_order := 0 }

/-- The catalog built from `inputW`. -/
def catW : Players := (mkPlayers cfgW inputW).toOption.getD {}

/-- A fresh two-team league over `catW`. -/
def lgW : League := mkLeague cfgW [teamA, teamB] true catW {} {}

/-- A classifier that always predicts quarterback. -/
def modelQBonly : OpponentModel := fun _ => [("qb", 1)]

/-- A classifier predicting quarterback or running back evenly. -/
def modelQBRB : OpponentModel := fun _ => [("qb", 1/2), ("rb", 1/2)]

/-- The zero oracle (always the first choice). -/
def oracleW : ℕ → ℕ := fun _ => 0

/-- `lgW` after drafting QB1. -/
def lgWdrafted : League := (draft_player cfgW "QB1" lgW).toOption.getD lgW

/-- QB1 as it sits in the catalog `catW` (tier assigned). -/
def playerQB1cat : Player :=
  { name := "QB1", position := "qb", position_tier := some "qb1",
    points := [(2024, { projected_points := 20 })] }

/-- An already-drafted catalog player. -/
def draftedX : Player :=
  { name := "X", position := "qb", position_tier := some "qb1",
    points := [(2025, { projected_points := 10 })], drafted := true }

/-- A catalog whose only player is already drafted. -/
def catDrafted : Players := { qb := [draftedX], players := [draftedX], years := [2025] }

/-- A league whose whole catalog is already drafted. -/
def lgDrafted : League :=
  { teams := [{ name := "C", owner := "c", draft_order := 1 }],
    draft_order := [0], players := catDrafted }

/-- An undrafted quarterback with default-year points. -/
def qbFillPlayer : Player :=
  { name := "Q", position := "qb", points := [(2025, { projected_points := 10 })] }

/-- A team whose quarterback slot is filled and nothing else. -/
def teamC5 : Team :=
  (mkTeam defaultConfig "T" "o" false 1 [qbFillPlayer]).toOption.getD defaultTeam

/-- A league of two teams sitting at draft turn 15 (more than seven
complete two-team rounds). -/
def lgC6 : League := { teams := [teamA, teamB], current_draft_turn := 15 }

/-- A catalog input consisting of a single defense. -/
def dstOnlyInput : List Player :=
  [{ name := "D1", position := "dst", points := [(2025, { projected_points := 5 })] }]

/-- Two players contributing disjoint season years. -/
def badInput : List Player :=
  [{ name := "A", position := "qb", points := [(2024, { projected_points := 5 })] },
   { name := "B", position := "rb", points := [(2025, { projected_points := 6 })] }]

/-- A tier-1 quarterback for projection randomization. -/
def tier1Player : Player :=
  { name := "T1", position := "qb", position_tier := some "qb1",
    points := [(2024, { projected_points := 20 })] }

/-- A defense whose tier has no distribution entry. -/
def noTierPlayer : Player :=
  { name := "N1", position := "dst", position_tier := some "dst",
    points := [(2024, { projected_points := 7 })] }

/-- Distributions with a single qb1 adjustment of +50%. -/
def distsW : PositionTierDistributions := { qb1 := [1/2] }

/-- Max points table capping quarterbacks at 25. -/
def maxW : PositionMaxPoints := { qb := 25 }

/-- A roster exercising primary and flex selection (default config). -/
def rosterW : List Player :=
  [{ name := "q", position := "qb", points := [(2025, { projected_points := 20 })] },
   { name := "r1", position := "rb", points := [(2025, { projected_points := 15 })] },
   { name := "r2", position := "rb", points := [(2025, { projected_points := 9 })] },
   { name := "r3", position := "rb", points := [(2025, { projected_points := 8 })] },
   { name := "w", position := "wr", points := [(2025, { projected_points := 12 })] }]

/-- The draft states reachable by a league: a freshly constructed league
followed by any number of successful picks. -/
inductive Reachable (cfg : Config) : League → Prop where
  | init (teams : List Team) (snake : Bool) (players : Players)
      (dists : PositionTierDistributions) (maxpts : PositionMaxPoints) :
      Reachable cfg (mkLeague cfg teams snake players dists maxpts)
  | step (l : League) (p : Player) (l' : League) : Reachable cfg l →
      add_player_to_current_draft_turn_team cfg l p = .ok l' → Reachable cfg l'

/-- What a successful `draft_player` call does to the league: the first
catalog player with the drafted name is replaced by a drafted copy, the
current team's roster gains the player, the turn counter advances and
the draft-order queue pops. -/
def draftPlayerOkSpec (league l' : League) (name : String) (p : Player) : Prop :=
  (∃ l₁ l₂, league.players.players = l₁ ++ p :: l₂ ∧ (∀ q ∈ l₁, q.name ≠ name) ∧
    l'.players.players = l₁ ++ ({ p with drafted := true }) :: l₂) ∧
  l'.current_draft_turn = league.current_draft_turn + 1 ∧
  l'.draft_order = league.draft_order.tail ∧
  ∃ ti t t', league.draft_order = ti :: l'.draft_order ∧
    league.teams.get? ti = some t ∧ l'.teams.get? ti = some t' ∧
    t'.roster = t.roster ++ [p]

/-- What a successful catalog construction guarantees: for each of the
six positions the constructed list is (up to the tier labels written into
the players) the input players of that position, ordered by the last
catalog year's projected points descending. -/
def mkPlayersSpec (cfg : Config) (input : List Player) : Prop :=
  ∃ c, mkPlayers cfg input = .ok c ∧
    ∀ pos ∈ positionsList,
      ((getPosList c pos).map (·.name)).Perm
        ((input.filter fun p => p.position == pos).map (·.name)) ∧
      ∀ ylast, (collectYears input).getLast? = some ylast →
        (getPosList c pos).Sorted (byYearDesc ylast)

/-- What a successful `monte_carlo_draft` report satisfies: the reported
value of every tracked position is the 2-decimal-rounded arithmetic mean
of exactly the scores its loop recorded; a tracked position with no
undrafted players records 0 each pass without consuming an iteration
slot, and reports average 0; the iteration count is the number of real
(player-available) iterations. -/
def c3Spec (cfg : Config) (league : League) (model : OpponentModel) (oracle : ℕ → ℕ)
    (passes : ℕ) (rep : List (String × ℚ)) (iters : ℕ) : Prop :=
  ∃ raw ctr,
    mcLoop cfg model oracle (trackedPositions cfg league) passes league
      ((trackedPositions cfg league).map fun pos => (pos, ([] : List ℚ))) 0 0
      = .ok (league, raw, iters, ctr) ∧
    rep = raw.map (fun kv => (kv.1, round2 (kv.2.sum / (kv.2.length : ℚ)))) ∧
    (∀ kv ∈ raw, kv.2 ≠ []) ∧
    (∀ pos ∈ trackedPositions cfg league,
      undraftedIn (getPosList league.players pos) = [] →
        raw.lookup pos = some (List.replicate passes 0) ∧ rep.lookup pos = some 0) ∧
    iters = passes * ((trackedPositions cfg league).filter
      (fun pos => !(undraftedIn (getPosList league.players pos)).isEmpty)).length

/-! ### Helper instances and lemmas -/

instance {ε α : Type} [DecidableEq ε] [DecidableEq α] : DecidableEq (Except ε α) :=
  fun a b =>
    match a, b with
    | .ok x, .ok y =>
      if h : x = y then .isTrue (by rw [h]) else
        .isFalse (fun hc => h (by injection hc))
    | .error x, .error y =>
      if h : x = y then .isTrue (by rw [h]) else
        .isFalse (fun hc => h (by injection hc))
    | .ok _, .error _ => .isFalse (fun hc => Except.noConfusion hc)
    | .error _, .ok _ => .isFalse (fun hc => Except.noConfusion hc)

theorem round2_zero : round2 0 = 0 := by with_unfolding_all decide

/-! ### C6: tracked candidate positions -/

/-- C6 (counterexample): in a two-team league at draft turn 15, more than
seven complete rounds of picks (7 × 2 = 14) have occurred, yet dst and k
are not tracked — the threshold compares against `ROUND_SIZE * 7 = 98`,
not against seven rounds of this league. -/
theorem tracked_positions_not_after_seven_league_rounds :
    7 * lgC6.teams.length < lgC6.current_draft_turn ∧
    "dst" ∉ trackedPositions defaultConfig lgC6 ∧
    "k" ∉ trackedPositions defaultConfig lgC6 := by decide

/-- C6 (amended): `monte_carlo_draft` always tracks qb, rb, wr and te,
and tracks dst and k exactly when the current draft turn exceeds
`ROUND_SIZE * 7`, where `ROUND_SIZE` is the configured rounds-per-draft
constant (14 by default) — not seven rounds of the league's teams. -/
theorem tracked_positions_threshold (cfg : Config) (l : League) :
    "qb" ∈ trackedPositions cfg l ∧ "rb" ∈ trackedPositions cfg l ∧
    "wr" ∈ trackedPositions cfg l ∧ "te" ∈ trackedPositions cfg l ∧
    ("dst" ∈ trackedPositions cfg l ↔ cfg.round_size * 7 < l.current_draft_turn) ∧
    ("k" ∈ trackedPositions cfg l ↔ cfg.round_size * 7 < l.current_draft_turn) := by
  unfold trackedPositions
  by_cases h : cfg.round_size * 7 < l.current_draft_turn <;> simp [h]

/-! ### C9: dst/k tier labels -/

/-- C9: tier classification of a catalog holding one dst player labels it
"dst1", not "dst" — `PositionTiers` has boundary entries for dst and k,
so the tier-equals-position branch of `assign_players_to_positions`
never runs. -/
theorem dst_gets_numbered_subtier :
    (mkPlayers defaultConfig dstOnlyInput).map (fun c => c.dst.map (·.position_tier))
      = .ok [some "dst1"] ∧ some "dst1" ≠ some "dst" := by with_unfolding_all decide

/-! ### C4: randomized point projections -/

/-- C4: `randomized_points` passes the projection through exactly when
the tier has no distribution; otherwise the applied adjustment is an
element of the tier's distribution, the output lies between 0 and
`⌊max_points[pos] * (1 + max_adjustment)⌋`, and `exceeded_max` is set
exactly when the raw rounded value exceeded that cap. -/
theorem randomized_points_spec (player : Player) (dists : PositionTierDistributions)
    (maxpts : PositionMaxPoints) (maxAdj : ℚ) (year : ℕ) (oracle : ℕ → ℕ) (ctr : ℕ)
    (pts : PlayerPoints) (hy : player.points.lookup year = some pts) :
    ((distGet dists player.position_tier = none ∨
        distGet dists player.position_tier = some []) →
      randomized_points player dists maxpts maxAdj year oracle ctr =
        .ok ({ randomized_points := pts.projected_points,
               projected_points := pts.projected_points }, ctr))
    ∧ (∀ a d mp, distGet dists player.position_tier = some (a :: d) →
        maxGet maxpts player.position.toLower = some mp → 0 ≤ mp → 0 ≤ maxAdj →
        ∃ adj ∈ a :: d, ∃ out : PlayerPointsRandomized,
          randomized_points player dists maxpts maxAdj year oracle ctr = .ok (out, ctr + 1) ∧
          out.projected_points = pts.projected_points ∧
          out.adjustment = round2 adj ∧
          0 ≤ out.randomized_points ∧
          out.randomized_points ≤ (⌊mp * (1 + maxAdj)⌋ : ℚ) ∧
          pyInt (mp * (1 + maxAdj)) = ⌊mp * (1 + maxAdj)⌋ ∧
          (out.exceeded_max = true ↔
            pyInt (mp * (1 + maxAdj)) < pyRound (pts.projected_points * (1 + adj)))) := by
  constructor
  · intro hd
    unfold randomized_points
    rcases hd with h | h <;> simp only [hy, h]
  · intro a d mp hd hmp hmp0 hadj0
    have hcapq : 0 ≤ mp * (1 + maxAdj) := by positivity
    have hpyInt : pyInt (mp * (1 + maxAdj)) = ⌊mp * (1 + maxAdj)⌋ := by
      unfold pyInt; rw [if_pos hcapq]
    have hcap0 : (0 : ℤ) ≤ ⌊mp * (1 + maxAdj)⌋ := Int.floor_nonneg.mpr hcapq
    refine ⟨(a :: d).get ⟨oracle ctr % (a :: d).length,
      Nat.mod_lt _ (Nat.succ_pos d.length)⟩, List.get_mem _ _ _, ?_⟩
    unfold randomized_points
    simp only [hy, hd, hmp]
    set adj := (a :: d).get ⟨oracle ctr % (a :: d).length,
      Nat.mod_lt _ (Nat.succ_pos d.length)⟩ with hadj
    by_cases h1 : pyRound (pts.projected_points * (1 + adj)) > pyInt (mp * (1 + maxAdj))
    · rw [if_pos h1]
      refine ⟨_, rfl, rfl, rfl, ?_, ?_, hpyInt, ?_⟩
      · show (0 : ℚ) ≤ ((pyInt (mp * (1 + maxAdj)) : ℤ) : ℚ)
        rw [hpyInt]; exact_mod_cast hcap0
      · show ((pyInt (mp * (1 + maxAdj)) : ℤ) : ℚ) ≤ (⌊mp * (1 + maxAdj)⌋ : ℚ)
        rw [hpyInt]
      · show true = true ↔ pyInt (mp * (1 + maxAdj)) < pyRound (pts.projected_points * (1 + adj))
        simpa using h1
    · rw [if_neg h1]
      by_cases h2 : pyRound (pts.projected_points * (1 + adj)) < 0
      · rw [if_pos h2]
        refine ⟨_, rfl, rfl, rfl, le_refl _, ?_, hpyInt, ?_⟩
        · show (0 : ℚ) ≤ (⌊mp * (1 + maxAdj)⌋ : ℚ)
          exact_mod_cast hcap0
        · show false = true ↔ pyInt (mp * (1 + maxAdj)) < pyRound (pts.projected_points * (1 + adj))
          simp only [Bool.false_eq_true, false_iff]
          exact h1
      · rw [if_neg h2]
        refine ⟨_, rfl, rfl, rfl, ?_, ?_, hpyInt, ?_⟩
        · show (0 : ℚ) ≤ ((pyRound (pts.projected_points * (1 + adj)) : ℤ) : ℚ)
          exact_mod_cast not_lt.mp h2
        · show ((pyRound (pts.projected_points * (1 + adj)) : ℤ) : ℚ) ≤ (⌊mp * (1 + maxAdj)⌋ : ℚ)
          have h3 : pyRound (pts.projected_points * (1 + adj)) ≤ pyInt (mp * (1 + maxAdj)) :=
            not_lt.mp h1
          rw [hpyInt] at h3
          exact_mod_cast h3
        · show false = true ↔ pyInt (mp * (1 + maxAdj)) < pyRound (pts.projected_points * (1 + adj))
          simp only [Bool.false_eq_true, false_iff]
          exact h1

/-- Witness for C4: a defense with no tier distribution passes its
7-point projection through unchanged, and a tier-1 quarterback drawing
the +50% adjustment is clamped at `⌊25 * 1.1⌋ = 27` with `exceeded_max`
set. -/
theorem randomized_points_spec_witness :
    (randomized_points noTierPlayer distsW maxW (1/10) 2024 oracleW 0 =
      .ok ({ randomized_points := 7, projected_points := 7 }, 0)) ∧
    (∃ adj ∈ ((1 : ℚ)/2 :: []), ∃ out : PlayerPointsRandomized,
      randomized_points tier1Player distsW maxW (1/10) 2024 oracleW 0 = .ok (out, 0 + 1) ∧
      out.projected_points = (20 : ℚ) ∧
      out.adjustment = round2 adj ∧
      0 ≤ out.randomized_points ∧
      out.randomized_points ≤ (⌊(25 : ℚ) * (1 + 1/10)⌋ : ℚ) ∧
      pyInt ((25 : ℚ) * (1 + 1/10)) = ⌊(25 : ℚ) * (1 + 1/10)⌋ ∧
      (out.exceeded_max = true ↔
        pyInt ((25 : ℚ) * (1 + 1/10)) < pyRound ((20 : ℚ) * (1 + adj)))) :=
  ⟨(randomized_points_spec noTierPlayer distsW maxW (1/10) 2024 oracleW 0
      { projected_points := 7 } (by with_unfolding_all decide)).1
    (Or.inl (by with_unfolding_all decide)),
   (randomized_points_spec tier1Player distsW maxW (1/10) 2024 oracleW 0
      { projected_points := 20 } (by with_unfolding_all decide)).2
    (1/2) [] 25 (by with_unfolding_all decide) (by with_unfolding_all decide)
    (by norm_num) (by norm_num)⟩

/-! ### C8: the roster optimizer -/

theorem primarySel_length_le (cfg : Config) (roster : List Player) (pos : String) :
    (primarySel cfg roster pos).length ≤ sizeFor cfg pos := by
  unfold primarySel
  exact List.length_take_le _ _

theorem primarySel_subset (cfg : Config) (roster : List Player) (pos : String) :
    ∀ p ∈ primarySel cfg roster pos, p ∈ roster := by
  intro p hp
  unfold primarySel at hp
  have hp1 := List.take_subset _ _ hp
  rw [List.mem_insertionSort] at hp1
  exact (List.mem_filter.mp hp1).1

theorem flexSel_mem (cfg : Config) (roster : List Player) :
    ∀ p ∈ flexSel cfg roster, p ∈ flexCandidates cfg roster := by
  intro p hp
  unfold flexSel at hp
  have hp1 := List.take_subset _ _ hp
  rwa [List.mem_insertionSort] at hp1

theorem flexCandidates_spec (cfg : Config) (roster : List Player) :
    ∀ p ∈ flexCandidates cfg roster, p ∈ roster ∧
      (p.position = "rb" ∨ p.position = "wr" ∨ p.position = "te") ∧
      ∀ pos ∈ sizesKeys, p ∉ primarySel cfg roster pos := by
  intro p hp
  unfold flexCandidates at hp
  obtain ⟨hmem, hcond⟩ := List.mem_filter.mp hp
  simp only [Bool.and_eq_true, Bool.or_eq_true, beq_iff_eq, Bool.not_eq_true'] at hcond
  obtain ⟨hposn, hnf⟩ := hcond
  refine ⟨hmem, by tauto, ?_⟩
  intro pos hpos hmem2
  have hin : p ∈ notFlexList cfg roster := by
    unfold notFlexList
    rw [List.mem_flatMap]
    exact ⟨pos, hpos, hmem2⟩
  simp at hnf
  exact hnf hin

/-- C8: the starters computed by `fill_starters` respect every position's
slot capacity, the flex picks are rostered rb/wr/te players not already
selected as primary starters, and every starter is a member of the
roster. -/
theorem fill_starters_spec (cfg : Config) (roster : List Player) (out : FillOut)
    (h : fill_starters cfg roster = .ok out) :
    (out.qb.length ≤ cfg.qb_size ∧ out.rb.length ≤ cfg.rb_size ∧
     out.wr.length ≤ cfg.wr_size ∧ out.te.length ≤ cfg.te_size ∧
     out.dst.length ≤ cfg.dst_size ∧ out.k.length ≤ cfg.k_size ∧
     out.flex.length ≤ cfg.flex_size) ∧
    (∀ p ∈ out.flex, p ∈ roster ∧
      (p.position = "rb" ∨ p.position = "wr" ∨ p.position = "te") ∧
      p ∉ out.qb ∧ p ∉ out.rb ∧ p ∉ out.wr ∧ p ∉ out.te ∧ p ∉ out.dst ∧ p ∉ out.k) ∧
    (∀ p ∈ out.starters, p ∈ roster) := by
  unfold fill_starters at h
  split at h
  · injection h with h2
    subst h2
    refine ⟨⟨primarySel_length_le .., primarySel_length_le .., primarySel_length_le ..,
      primarySel_length_le .., primarySel_length_le .., primarySel_length_le ..,
      List.length_take_le ..⟩, ?_, ?_⟩
    · intro p hp
      have hc := flexCandidates_spec cfg roster p (flexSel_mem cfg roster p hp)
      refine ⟨hc.1, hc.2.1, ?_, ?_, ?_, ?_, ?_, ?_⟩ <;>
        exact hc.2.2 _ (by simp [sizesKeys])
    · intro p hp
      simp only [List.mem_append] at hp
      rcases hp with ((((((h1 | h2) | h3) | h4) | h5) | h6) | h7)
      · exact primarySel_subset _ _ _ _ h1
      · exact primarySel_subset _ _ _ _ h2
      · exact primarySel_subset _ _ _ _ h3
      · exact primarySel_subset _ _ _ _ h4
      · exact primarySel_subset _ _ _ _ h5
      · exact primarySel_subset _ _ _ _ h6
      · exact (flexCandidates_spec cfg roster p (flexSel_mem cfg roster p h7)).1
  · cases h

/-- Witness for C8: the optimizer on a roster of one qb, three rbs and a
wr under the default configuration. -/
theorem fill_starters_spec_witness :
    (∃ out : FillOut, fill_starters defaultConfig rosterW = .ok out ∧
      ((out.qb.length ≤ defaultConfig.qb_size ∧ out.rb.length ≤ defaultConfig.rb_size ∧
        out.wr.length ≤ defaultConfig.wr_size ∧ out.te.length ≤ defaultConfig.te_size ∧
        out.dst.length ≤ defaultConfig.dst_size ∧ out.k.length ≤ defaultConfig.k_size ∧
        out.flex.length ≤ defaultConfig.flex_size) ∧
      (∀ p ∈ out.flex, p ∈ rosterW ∧
        (p.position = "rb" ∨ p.position = "wr" ∨ p.position = "te") ∧
        p ∉ out.qb ∧ p ∉ out.rb ∧ p ∉ out.wr ∧ p ∉ out.te ∧ p ∉ out.dst ∧ p ∉ out.k) ∧
      (∀ p ∈ out.starters, p ∈ rosterW))) :=
  ⟨(fill_starters defaultConfig rosterW).toOption.getD {},
   by with_unfolding_all decide,
   fill_starters_spec defaultConfig rosterW _ (by with_unfolding_all decide)⟩

/-! ### C5: slot-aware reweighting -/

theorem dictSet_zero_self (acc : List (String × ℚ)) (key : String) :
    ∀ kv ∈ dictSet acc key 0, kv.1 = key → kv.2 = 0 := by
  intro kv hkv hk
  unfold dictSet at hkv
  split at hkv
  · obtain ⟨kv0, hkv0, hkv0e⟩ := List.mem_map.mp hkv
    by_cases hb : kv0.1 == key
    · rw [if_pos hb] at hkv0e
      rw [← hkv0e]
    · rw [if_neg hb] at hkv0e
      subst hkv0e
      exact absurd (by simpa using hk) hb
  · rcases List.mem_append.mp hkv with hl | hr
    · next hany =>
      exfalso
      have : acc.any (fun kv => kv.1 == key) = true :=
        List.any_eq_true.mpr ⟨kv, hl, by simpa using hk⟩
      exact hany this
    · simp only [List.mem_singleton] at hr
      rw [hr]

theorem dictSet_keep_zero (acc : List (String × ℚ)) (key pos : String) (v : ℚ)
    (hz : ∀ kv ∈ acc, kv.1 = pos → kv.2 = 0) (hv : v = 0 ∨ key ≠ pos) :
    ∀ kv ∈ dictSet acc key v, kv.1 = pos → kv.2 = 0 := by
  intro kv hkv hk
  unfold dictSet at hkv
  split at hkv
  · obtain ⟨kv0, hkv0, hkv0e⟩ := List.mem_map.mp hkv
    by_cases hb : kv0.1 == key
    · rw [if_pos hb] at hkv0e
      rcases hv with rfl | hne
      · rw [← hkv0e]
      · exfalso
        apply hne
        rw [← hkv0e] at hk
        simp only at hk
        rw [← hk]
        exact (beq_iff_eq.mp hb).symm ▸ rfl
    · rw [if_neg hb] at hkv0e
      subst hkv0e
      exact hz kv0 hkv0 hk
  · rcases List.mem_append.mp hkv with hl | hr
    · exact hz kv hl hk
    · simp only [List.mem_singleton] at hr
      subst hr
      rcases hv with rfl | hne
      · rfl
      · exact absurd hk hne

theorem zeroFoldAux_keep (cfg : Config) (t : Team) (pos : String) :
    ∀ (S : List String) (acc : List (String × ℚ)),
      (∀ kv ∈ acc, kv.1 = pos → kv.2 = 0) →
      ∀ kv ∈ S.foldl
        (fun acc p => if teamPosFilled cfg t p then dictSet acc p 0 else acc) acc,
        kv.1 = pos → kv.2 = 0 := by
  intro S
  induction S with
  | nil => intro acc hz kv hkv; exact hz kv hkv
  | cons q S ih =>
    intro acc hz kv hkv
    simp only [List.foldl_cons] at hkv
    refine ih _ ?_ kv hkv
    by_cases hq : teamPosFilled cfg t q
    · rw [if_pos hq]
      exact dictSet_keep_zero acc q pos 0 hz (Or.inl rfl)
    · rw [if_neg hq]
      exact hz

theorem zeroFold_zero (cfg : Config) (t : Team) :
    ∀ (S : List String) (acc : List (String × ℚ)) (kv : String × ℚ),
      kv ∈ S.foldl
        (fun acc p => if teamPosFilled cfg t p then dictSet acc p 0 else acc) acc →
      kv.1 ∈ S → teamPosFilled cfg t kv.1 = true → kv.2 = 0 := by
  intro S
  induction S with
  | nil => intro acc kv _ hmem; cases hmem
  | cons q S ih =>
    intro acc kv hkv hmem hfill
    simp only [List.foldl_cons] at hkv
    rcases List.mem_cons.mp hmem with hq | hS
    · subst hq
      refine zeroFoldAux_keep cfg t kv.1 S _ ?_ kv hkv rfl
      rw [if_pos hfill]
      exact dictSet_zero_self acc kv.1
    · exact ih _ kv hkv hS hfill

theorem zeroFilled_zero (cfg : Config) (t : Team) (pw : List (String × ℚ)) :
    ∀ kv ∈ zeroFilled cfg t pw, kv.1 ∈ startingPositions →
      teamPosFilled cfg t kv.1 = true → kv.2 = 0 :=
  fun kv hkv => zeroFold_zero cfg t startingPositions pw kv hkv

theorem sum_map_snd_div (l : List (String × ℚ)) (c : ℚ) :
    ((l.map fun kv => (kv.1, kv.2 / c)).map fun kv => kv.2).sum =
      ((l.map fun kv => kv.2).sum) / c := by
  induction l with
  | nil => simp
  | cons a l ih =>
    simp only [List.map_cons, List.sum_cons, ih]
    rw [div_add_div_same]

/-- C5 (counterexample): for a team whose only filled starting slot is
quarterback and a classifier that only predicts quarterback, the
reweighting step raises `ZeroDivisionError` instead of resetting the
remaining candidates to equal weights — the equal-weight reset exists
only in the sampling loop of `simulate_pick`. -/
theorem reweighting_zero_sum_divides_by_zero :
    (∃ pos ∈ startingPositions, teamPosFilled defaultConfig teamC5 pos = false) ∧
    draft_turn_position_weights defaultConfig teamC5 5 modelQBonly =
      .error .zeroDivision := by
  constructor
  · exact ⟨"rb", by with_unfolding_all decide, by with_unfolding_all decide⟩
  · with_unfolding_all decide

/-- C5 (amended): when at least one starting position is unfilled, the
reweighting step zeroes the weight of every filled position; if the
weights then sum to zero the operation fails with a `ZeroDivisionError`,
otherwise it renormalizes the remaining weights to sum to 1. -/
theorem draft_turn_position_weights_spec (cfg : Config) (t : Team) (pick : ℕ)
    (model : OpponentModel)
    (hu : ∃ pos ∈ startingPositions, teamPosFilled cfg t pos = false) :
    ((((zeroFilled cfg t (model pick)).map fun kv => kv.2).sum = 0 →
        draft_turn_position_weights cfg t pick model = .error .zeroDivision)
    ∧ (∀ total, total = ((zeroFilled cfg t (model pick)).map fun kv => kv.2).sum →
        total ≠ 0 →
        draft_turn_position_weights cfg t pick model =
          .ok ((zeroFilled cfg t (model pick)).map fun kv => (kv.1, kv.2 / total))
        ∧ (((zeroFilled cfg t (model pick)).map fun kv =>
              (kv.1, kv.2 / total)).map fun kv => kv.2).sum = 1
        ∧ ∀ kv ∈ (zeroFilled cfg t (model pick)).map fun kv => (kv.1, kv.2 / total),
            kv.1 ∈ startingPositions → teamPosFilled cfg t kv.1 = true → kv.2 = 0)) := by
  have hlt : ((startingPositions.filter fun pos => teamPosFilled cfg t pos).length)
      < startingPositions.length := by
    apply List.length_filter_lt_length_iff_exists.mpr
    obtain ⟨pos, hpos, hf⟩ := hu
    exact ⟨pos, hpos, by simp [hf]⟩
  constructor
  · intro hzero
    unfold draft_turn_position_weights
    rw [if_neg (Nat.ne_of_lt hlt)]
    simp only [hzero]
    rfl
  · intro total htot hne
    subst htot
    refine ⟨?_, ?_, ?_⟩
    · unfold draft_turn_position_weights
      rw [if_neg (Nat.ne_of_lt hlt), if_neg hne]
    · rw [sum_map_snd_div]
      exact div_self hne
    · intro kv hkv hmem hfill
      obtain ⟨kv0, hkv0, hkv0e⟩ := List.mem_map.mp hkv
      have h0 : kv0.2 = 0 := by
        apply zeroFilled_zero cfg t (model pick) kv0 hkv0
        · rw [← hkv0e] at hmem
          exact hmem
        · rw [← hkv0e] at hfill
          exact hfill
      rw [← hkv0e]
      simp only [h0, zero_div]

/-- Witness for C5: a team with only the quarterback slot filled and a
two-class model renormalizes to qb ↦ 0, rb ↦ 1. -/
theorem draft_turn_position_weights_spec_witness :
    (∃ pos ∈ startingPositions, teamPosFilled defaultConfig teamC5 pos = false) ∧
    ((1 : ℚ)/2 ≠ 0) ∧
    (draft_turn_position_weights defaultConfig teamC5 5 modelQBRB =
        .ok ((zeroFilled defaultConfig teamC5 (modelQBRB 5)).map fun kv => (kv.1, kv.2 / (1/2)))
      ∧ (((zeroFilled defaultConfig teamC5 (modelQBRB 5)).map fun kv =>
            (kv.1, kv.2 / (1/2))).map fun kv => kv.2).sum = 1
      ∧ ∀ kv ∈ (zeroFilled defaultConfig teamC5 (modelQBRB 5)).map fun kv =>
            (kv.1, kv.2 / (1/2)),
          kv.1 ∈ startingPositions → teamPosFilled defaultConfig teamC5 kv.1 = true →
            kv.2 = 0) :=
  ⟨⟨"rb", by with_unfolding_all decide, by with_unfolding_all decide⟩,
   by norm_num,
   (draft_turn_position_weights_spec defaultConfig teamC5 5 modelQBRB
      ⟨"rb", by with_unfolding_all decide, by with_unfolding_all decide⟩).2
    (1/2) (by with_unfolding_all decide) (by norm_num)⟩

/-! ### C7: the draft-order/turn invariant -/

theorem foldl_append_blocks (f : ℕ → List ℕ) (N : ℕ) (hf : ∀ i, (f i).length = N) :
    ∀ (l : List ℕ) (init : List ℕ),
      (l.foldl (fun acc i => acc ++ f i) init).length = init.length + l.length * N := by
  intro l
  induction l with
  | nil => intro init; simp
  | cons a l ih =>
    intro init
    simp only [List.foldl_cons, List.length_cons, ih, List.length_append, hf]
    ring

theorem mkLeague_counts (cfg : Config) (teams : List Team) (snake : Bool)
    (players : Players) (dists : PositionTierDistributions) (maxpts : PositionMaxPoints) :
    (mkLeague cfg teams snake players dists maxpts).teams.length = teams.length ∧
    (mkLeague cfg teams snake players dists maxpts).draft_order.length =
      cfg.round_size * teams.length ∧
    (mkLeague cfg teams snake players dists maxpts).current_draft_turn = 0 := by
  have hsort : (teams.insertionSort fun a b => a.draft_order ≤ b.draft_order).length
      = teams.length := List.length_insertionSort _ _
  refine ⟨hsort, ?_, rfl⟩
  show (((List.range cfg.round_size).foldl (fun acc i => acc ++ _) []).length) = _
  rw [foldl_append_blocks _ teams.length]
  · simp
  · intro i
    split
    · split
      · simp [hsort]
      · simp [hsort]
    · simp [hsort]

theorem add_player_delta (cfg : Config) (l : League) (p : Player) (l' : League)
    (h : add_player_to_current_draft_turn_team cfg l p = .ok l') :
    l'.current_draft_turn = l.current_draft_turn + 1 ∧
    l'.draft_order.length + 1 = l.draft_order.length ∧
    l'.teams.length = l.teams.length := by
  unfold add_player_to_current_draft_turn_team at h
  cases ho : l.draft_order with
  | nil => rw [ho] at h; cases h
  | cons ti rest =>
    rw [ho] at h
    dsimp only at h
    cases ht : l.teams.get? ti with
    | none => rw [ht] at h; cases h
    | some team =>
      rw [ht] at h
      dsimp only at h
      cases hm : mkTeam cfg team.name team.owner team.simulator team.draft_order
          (team.roster ++ [p]) with
      | error e => rw [hm] at h; cases h
      | ok team2 =>
        rw [hm] at h
        injection h with h2
        subst h2
        refine ⟨rfl, ?_, ?_⟩
        · simp [ho]
        · simp [List.length_set]

/-- C7: at every reachable point of a draft the current turn plus the
length of the remaining draft order equals the league's total pick count
(`ROUND_SIZE × number of teams`), and every successful pick shrinks the
order queue by exactly one while incrementing the turn by exactly one. -/
theorem league_draft_invariant (cfg : Config) (l : League) (h : Reachable cfg l) :
    (l.current_draft_turn + l.draft_order.length = cfg.round_size * l.teams.length) ∧
    (∀ p l', add_player_to_current_draft_turn_team cfg l p = .ok l' →
      l'.current_draft_turn = l.current_draft_turn + 1 ∧
      l'.draft_order.length + 1 = l.draft_order.length ∧
      l'.teams.length = l.teams.length) := by
  induction h with
  | init teams snake players dists maxpts =>
    obtain ⟨h1, h2, h3⟩ := mkLeague_counts cfg teams snake players dists maxpts
    exact ⟨by rw [h1, h2, h3]; omega, fun p l' hs => add_player_delta cfg _ p l' hs⟩
  | step l0 p l1 _ hstep ih =>
    obtain ⟨hturn, horder, hteams⟩ := add_player_delta cfg l0 p l1 hstep
    refine ⟨?_, fun q l2 hs => add_player_delta cfg l1 q l2 hs⟩
    rw [hturn, hteams, ← ih.1]
    omega

/-- Witness for C7: the freshly constructed two-team league `lgW`
satisfies the invariant. -/
theorem league_draft_invariant_witness :
    lgW.current_draft_turn + lgW.draft_order.length =
      cfgW.round_size * lgW.teams.length :=
  (league_draft_invariant cfgW lgW (Reachable.init [teamA, teamB] true catW {} {})).1

/-! ### C1: drafting a player by name -/

theorem markFirstDrafted_spec (name : String) :
    ∀ (l : List Player) (p : Player) (rest : List Player),
      l.filter (fun q => q.name == name) = p :: rest →
      ∃ l1 l2, l = l1 ++ p :: l2 ∧ (∀ q ∈ l1, q.name ≠ name) ∧ p.name = name ∧
        markFirstDrafted l name = .ok (l1 ++ ({ p with drafted := true }) :: l2) := by
  intro l
  induction l with
  | nil => intro p rest h; simp at h
  | cons a t ih =>
    intro p rest h
    rw [List.filter_cons] at h
    by_cases ha : (a.name == name) = true
    · rw [if_pos ha] at h
      injection h with h1 h2
      subst h1
      refine ⟨[], t, rfl, by simp, beq_iff_eq.mp ha, ?_⟩
      unfold markFirstDrafted
      rw [if_pos ha]
      rfl
    · rw [if_neg ha] at h
      obtain ⟨l1, l2, he, hn, hpn, hm⟩ := ih p rest h
      refine ⟨a :: l1, l2, by rw [he]; rfl, ?_, hpn, ?_⟩
      · intro q hq
        rcases List.mem_cons.mp hq with rfl | hq2
        · exact fun hc => ha (beq_iff_eq.mpr hc)
        · exact hn q hq2
      · unfold markFirstDrafted
        rw [if_neg ha, hm]
        rfl

theorem setPosList_players (c : Players) (pos : String) (l : List Player) :
    (setPosList c pos l).players = c.players := by
  unfold setPosList
  split <;> rfl

/-- C1 (amended): `draft_player` fails with `PlayerNotFound` exactly when
the name is absent from the catalog; when a player of that name exists —
drafted already or not — a successful call marks the first catalog entry
of that name drafted, appends the found player to the roster of the team
whose turn it is, advances the turn counter and pops the draft order. -/
theorem draft_player_spec (cfg : Config) (league : League) (name : String) :
    (league.players.players.filter (fun q => q.name == name) = [] →
      draft_player cfg name league = .error .playerNotFound) ∧
    (∀ p rest l', league.players.players.filter (fun q => q.name == name) = p :: rest →
      draft_player cfg name league = .ok l' → draftPlayerOkSpec league l' name p) := by
  constructor
  · intro h
    unfold draft_player
    rw [h]
  · intro p rest l' hf hok
    obtain ⟨l1, l2, he, hn, hpn, hm⟩ := markFirstDrafted_spec name _ p rest hf
    unfold draft_player at hok
    rw [hf] at hok
    dsimp only at hok
    rw [hm] at hok
    dsimp only at hok
    -- `hok` is now the `add_player_to_current_draft_turn_team` call on a
    -- league whose catalog flat list is the marked one, in both branches
    -- of the position-list update.
    have hcat : ∀ lg2, add_player_to_current_draft_turn_team cfg lg2 p = .ok l' →
        lg2.players.players = l1 ++ ({ p with drafted := true }) :: l2 →
        lg2.draft_order = league.draft_order →
        lg2.teams = league.teams →
        lg2.current_draft_turn = league.current_draft_turn →
        draftPlayerOkSpec league l' name p := by
      intro lg2 hadd hpl hord hteams hturn
      unfold add_player_to_current_draft_turn_team at hadd
      cases ho : lg2.draft_order with
      | nil => rw [ho] at hadd; cases hadd
      | cons ti restOrder =>
        rw [ho] at hadd
        dsimp only at hadd
        cases ht : lg2.teams.get? ti with
        | none => rw [ht] at hadd; cases hadd
        | some team =>
          rw [ht] at hadd
          dsimp only at hadd
          cases hmk : mkTeam cfg team.name team.owner team.simulator team.draft_order
              (team.roster ++ [p]) with
          | error e => rw [hmk] at hadd; cases hadd
          | ok team2 =>
            rw [hmk] at hadd
            injection hadd with hadd2
            subst hadd2
            have hlen : ti < lg2.teams.length := by
              rw [List.get?_eq_getElem?] at ht
              exact (List.getElem?_eq_some_iff.mp ht).fst
            have hroster : team2.roster = team.roster ++ [p] := by
              unfold mkTeam at hmk
              rw [if_neg (by simp)] at hmk
              cases hfs : fill_starters cfg (team.roster ++ [p]) with
              | error e => rw [hfs] at hmk; cases hmk
              | ok out =>
                rw [hfs] at hmk
                dsimp only at hmk
                injection hmk with hmk2
                rw [← hmk2]
            refine ⟨⟨l1, l2, he, hn, hpl⟩, by rw [hturn], ?_, ?_⟩
            · show restOrder = league.draft_order.tail
              rw [← hord, ho]
              rfl
            · refine ⟨ti, team, team2, ?_, ?_, ?_, hroster⟩
              · show league.draft_order = ti :: restOrder
                rw [← hord, ho]
              · rw [← hteams]
                exact ht
              · show (lg2.teams.set ti team2).get? ti = some team2
                simp [List.get?_eq_getElem?, List.getElem?_set_self hlen]
    by_cases hmem : p.position ∈ positionsList
    · rw [if_pos hmem] at hok
      cases hm2 : markFirstDrafted
          (getPosList { league.players with players := l1 ++ ({ p with drafted := true }) :: l2 }
            p.position) name with
      | error e => rw [hm2] at hok; cases hok
      | ok lp =>
        rw [hm2] at hok
        dsimp only at hok
        exact hcat _ hok (by rw [setPosList_players]) rfl rfl rfl
    · rw [if_neg hmem] at hok
      exact hcat _ hok rfl rfl rfl rfl

/-- C1 (counterexample): drafting a player who is already drafted does
not fail with `PlayerNotFound` — the backend re-drafts them. -/
theorem draft_player_accepts_drafted_player :
    lgDrafted.players.players.filter
        (fun q => (q.name == "X") && (q.drafted == false)) = [] ∧
    draft_player defaultConfig "X" lgDrafted ≠ .error .playerNotFound ∧
    (draft_player defaultConfig "X" lgDrafted).isOk = true := by
  refine ⟨by with_unfolding_all decide, ?_, by with_unfolding_all decide⟩
  intro hc
  have : (draft_player defaultConfig "X" lgDrafted).isOk = true := by
    with_unfolding_all decide
  rw [hc] at this
  cases this

/-- Witness for C1: drafting QB1 from the fresh league succeeds and does
everything the amended claim says; an unknown name yields
`PlayerNotFound`. -/
theorem draft_player_spec_witness :
    (lgW.players.players.filter (fun q => q.name == "NOBODY") = [] ∧
      draft_player cfgW "NOBODY" lgW = .error .playerNotFound) ∧
    (lgW.players.players.filter (fun q => q.name == "QB1") = [playerQB1cat] ∧
      draft_player cfgW "QB1" lgW = .ok lgWdrafted ∧
      draftPlayerOkSpec lgW lgWdrafted "QB1" playerQB1cat) :=
  ⟨⟨by with_unfolding_all decide,
    (draft_player_spec cfgW lgW "NOBODY").1 (by with_unfolding_all decide)⟩,
   ⟨by with_unfolding_all decide,
    by with_unfolding_all decide,
    (draft_player_spec cfgW lgW "QB1").2 playerQB1cat [] lgWdrafted
      (by with_unfolding_all decide) (by with_unfolding_all decide)⟩⟩

/-! ### C2: the Monte Carlo loop does not mutate the authoritative league -/

theorem mcIteration_auth (cfg : Config) (model : OpponentModel) (oracle : ℕ → ℕ)
    (auth : League) (pos : String) (acc : List (String × List ℚ)) (i ctr : ℕ)
    (out : League × List (String × List ℚ) × ℕ × ℕ)
    (h : mcIteration cfg model oracle auth pos acc i ctr = .ok out) : out.1 = auth := by
  unfold mcIteration at h
  cases hb : mcIterationBody cfg model oracle auth pos ctr with
  | error e => rw [hb] at h; cases h
  | ok pr =>
    rw [hb] at h
    obtain ⟨sOpt, c1⟩ := pr
    cases sOpt <;> (dsimp only at h; injection h with h2; subst h2; rfl)

theorem mcPass_auth (cfg : Config) (model : OpponentModel) (oracle : ℕ → ℕ) :
    ∀ (tracked : List String) (auth : League) (acc : List (String × List ℚ)) (i ctr : ℕ)
      (out : League × List (String × List ℚ) × ℕ × ℕ),
      mcPass cfg model oracle tracked auth acc i ctr = .ok out → out.1 = auth := by
  intro tracked
  induction tracked with
  | nil =>
    intro auth acc i ctr out h
    unfold mcPass at h
    injection h with h2
    subst h2
    rfl
  | cons pos rest ih =>
    intro auth acc i ctr out h
    unfold mcPass at h
    cases hb : mcIteration cfg model oracle auth pos acc i ctr with
    | error e => rw [hb] at h; cases h
    | ok pr =>
      rw [hb] at h
      obtain ⟨auth1, acc1, i1, ctr1⟩ := pr
      dsimp only at h
      have h1 := ih auth1 acc1 i1 ctr1 out h
      have h2 := mcIteration_auth cfg model oracle auth pos acc i ctr _ hb
      rw [h1]
      exact h2

theorem mcLoop_auth (cfg : Config) (model : OpponentModel) (oracle : ℕ → ℕ)
    (tracked : List String) :
    ∀ (n : ℕ) (auth : League) (acc : List (String × List ℚ)) (i ctr : ℕ)
      (out : League × List (String × List ℚ) × ℕ × ℕ),
      mcLoop cfg model oracle tracked n auth acc i ctr = .ok out → out.1 = auth := by
  intro n
  induction n with
  | zero =>
    intro auth acc i ctr out h
    unfold mcLoop at h
    injection h with h2
    subst h2
    rfl
  | succ n ih =>
    intro auth acc i ctr out h
    unfold mcLoop at h
    cases hb : mcPass cfg model oracle tracked auth acc i ctr with
    | error e => rw [hb] at h; cases h
    | ok pr =>
      rw [hb] at h
      obtain ⟨auth1, acc1, i1, ctr1⟩ := pr
      dsimp only at h
      have h1 := ih auth1 acc1 i1 ctr1 out h
      have h2 := mcPass_auth cfg model oracle tracked auth acc i ctr _ hb
      rw [h1]
      exact h2

/-- C2: `monte_carlo_draft` returns the authoritative league unchanged —
every speculative pick happens on the per-iteration value copy, whether
the simulation succeeds or raises. -/
theorem monte_carlo_draft_frame (cfg : Config) (league : League)
    (model : OpponentModel) (oracle : ℕ → ℕ) (passes : ℕ) :
    (monte_carlo_draft cfg league model oracle passes).2 = league := by
  unfold monte_carlo_draft
  dsimp only
  cases hl : mcLoop cfg model oracle (trackedPositions cfg league) passes league
      ((trackedPositions cfg league).map fun pos => (pos, ([] : List ℚ))) 0 0 with
  | error e => rfl
  | ok out =>
    obtain ⟨auth, raw, i, c⟩ := out
    have ha : auth = league :=
      mcLoop_auth cfg model oracle (trackedPositions cfg league) passes league _ 0 0 _ hl
    dsimp only
    cases hr : mcReport raw <;> (dsimp only; exact ha)

/-! ### C10: catalog construction and the uniform-years precondition -/

theorem assignTiers_points (cfg : Config) (pos : String) (l : List Player) :
    (assignTiers cfg pos l).map (·.points) = l.map (·.points) := by
  unfold assignTiers
  cases tierBounds cfg pos with
  | none => rw [List.map_map]; rfl
  | some b =>
    obtain ⟨t1, t2⟩ := b
    rw [List.map_map]
    show l.enum.map (fun ip => ip.2.points) = l.map (·.points)
    have h2 : l.enum.map (fun ip => ip.2.points) = (l.enum.map Prod.snd).map (·.points) := by
      rw [List.map_map]
      rfl
    rw [h2, List.enum_map_snd]

theorem assignTiers_names (cfg : Config) (pos : String) (l : List Player) :
    (assignTiers cfg pos l).map (·.name) = l.map (·.name) := by
  unfold assignTiers
  cases tierBounds cfg pos with
  | none => rw [List.map_map]; rfl
  | some b =>
    obtain ⟨t1, t2⟩ := b
    rw [List.map_map]
    show l.enum.map (fun ip => ip.2.name) = l.map (·.name)
    have h2 : l.enum.map (fun ip => ip.2.name) = (l.enum.map Prod.snd).map (·.name) := by
      rw [List.map_map]
      rfl
    rw [h2, List.enum_map_snd]

theorem assignTiers_sorted (cfg : Config) (pos : String) (l : List Player) (y : ℕ)
    (h : l.Sorted (byYearDesc y)) : (assignTiers cfg pos l).Sorted (byYearDesc y) := by
  unfold assignTiers
  cases tierBounds cfg pos with
  | none => exact List.pairwise_map.mpr (h.imp fun hab => hab)
  | some b =>
    obtain ⟨t1, t2⟩ := b
    have h2 : (l.enum.map Prod.snd).Pairwise (byYearDesc y) := by
      rw [List.enum_map_snd]; exact h
    have h3 : l.enum.Pairwise (fun a b => byYearDesc y a.2 b.2) :=
      List.pairwise_map.mp h2
    exact List.pairwise_map.mpr (h3.imp fun hab => hab)

/-- One position list's processing inside a year step preserves the
points of its members and their names, sorts it, and keeps the
uniform-years property. -/
theorem stepList_props (cfg : Config) (pos : String) (y : ℕ) (years : List ℕ)
    (l : List Player) (h : ∀ p ∈ l, ∀ y2 ∈ years, (p.points.lookup y2).isSome = true)
    (hy : y ∈ years) :
    sortPosByYear l y = .ok (l.insertionSort (byYearDesc y)) ∧
    (∀ p ∈ assignTiers cfg pos (l.insertionSort (byYearDesc y)),
      ∀ y2 ∈ years, (p.points.lookup y2).isSome = true) ∧
    (assignTiers cfg pos (l.insertionSort (byYearDesc y))).Sorted (byYearDesc y) ∧
    ((assignTiers cfg pos (l.insertionSort (byYearDesc y))).map (·.name)).Perm
      (l.map (·.name)) := by
  refine ⟨?_, ?_, ?_, ?_⟩
  · unfold sortPosByYear
    rw [if_pos]
    apply List.all_eq_true.mpr
    intro p hp
    exact h p hp y hy
  · intro q hq y2 hy2
    have hmem : q.points ∈ (assignTiers cfg pos (l.insertionSort (byYearDesc y))).map
        (·.points) := List.mem_map_of_mem _ hq
    rw [assignTiers_points] at hmem
    obtain ⟨p, hp, hpe⟩ := List.mem_map.mp hmem
    rw [List.mem_insertionSort] at hp
    rw [← hpe]
    exact h p hp y2 hy2
  · exact assignTiers_sorted cfg pos _ y (List.sorted_insertionSort _ l)
  · rw [assignTiers_names]
    exact (List.perm_insertionSort (byYearDesc y) l).map (·.name)

/-- The uniform-years invariant over the whole catalog. -/
def catInv (years : List ℕ) (c : Players) : Prop :=
  ∀ pos ∈ positionsList, ∀ p ∈ getPosList c pos, ∀ y ∈ years,
    (p.points.lookup y).isSome = true

theorem yearStep_ok (cfg : Config) (c : Players) (y : ℕ) (years : List ℕ)
    (hy : y ∈ years) (hinv : catInv years c) :
    ∃ c2, yearStep cfg c y = .ok c2 ∧ catInv years c2 ∧
      (∀ pos ∈ positionsList, (getPosList c2 pos).Sorted (byYearDesc y)) ∧
      (∀ pos ∈ positionsList,
        ((getPosList c2 pos).map (·.name)).Perm ((getPosList c pos).map (·.name))) := by
  have hqb := stepList_props cfg "qb" y years c.qb
    (hinv "qb" (by simp [positionsList])) hy
  have hrb := stepList_props cfg "rb" y years c.rb
    (hinv "rb" (by simp [positionsList])) hy
  have hwr := stepList_props cfg "wr" y years c.wr
    (hinv "wr" (by simp [positionsList])) hy
  have hte := stepList_props cfg "te" y years c.te
    (hinv "te" (by simp [positionsList])) hy
  have hdst := stepList_props cfg "dst" y years c.dst
    (hinv "dst" (by simp [positionsList])) hy
  have hk := stepList_props cfg "k" y years c.k
    (hinv "k" (by simp [positionsList])) hy
  have hstep : yearStep cfg c y = .ok { c with
      qb := assignTiers cfg "qb" (c.qb.insertionSort (byYearDesc y))
      rb := assignTiers cfg "rb" (c.rb.insertionSort (byYearDesc y))
      wr := assignTiers cfg "wr" (c.wr.insertionSort (byYearDesc y))
      te := assignTiers cfg "te" (c.te.insertionSort (byYearDesc y))
      dst := assignTiers cfg "dst" (c.dst.insertionSort (byYearDesc y))
      k := assignTiers cfg "k" (c.k.insertionSort (byYearDesc y)) } := by
    unfold yearStep
    rw [hqb.1, hrb.1, hwr.1, hte.1, hdst.1, hk.1]
  refine ⟨_, hstep, ?_, ?_, ?_⟩
  · intro pos hpos p hp
    simp only [positionsList, List.mem_cons, List.not_mem_nil, or_false] at hpos
    rcases hpos with rfl | rfl | rfl | rfl | rfl | rfl
    · exact hqb.2.1 p hp
    · exact hrb.2.1 p hp
    · exact hwr.2.1 p hp
    · exact hte.2.1 p hp
    · exact hdst.2.1 p hp
    · exact hk.2.1 p hp
  · intro pos hpos
    simp only [positionsList, List.mem_cons, List.not_mem_nil, or_false] at hpos
    rcases hpos with rfl | rfl | rfl | rfl | rfl | rfl
    · exact hqb.2.2.1
    · exact hrb.2.2.1
    · exact hwr.2.2.1
    · exact hte.2.2.1
    · exact hdst.2.2.1
    · exact hk.2.2.1
  · intro pos hpos
    simp only [positionsList, List.mem_cons, List.not_mem_nil, or_false] at hpos
    rcases hpos with rfl | rfl | rfl | rfl | rfl | rfl
    · exact hqb.2.2.2
    · exact hrb.2.2.2
    · exact hwr.2.2.2
    · exact hte.2.2.2
    · exact hdst.2.2.2
    · exact hk.2.2.2

theorem yearsFold_ok (cfg : Config) :
    ∀ (ys : List ℕ) (years : List ℕ) (c : Players),
      (∀ y ∈ ys, y ∈ years) → catInv years c →
      ∃ c2, ys.foldlM (yearStep cfg) c = .ok c2 ∧ catInv years c2 ∧
        (∀ pos ∈ positionsList,
          ((getPosList c2 pos).map (·.name)).Perm ((getPosList c pos).map (·.name))) ∧
        (∀ ylast, ys.getLast? = some ylast →
          ∀ pos ∈ positionsList, (getPosList c2 pos).Sorted (byYearDesc ylast)) := by
  intro ys
  induction ys with
  | nil =>
    intro years c _ hinv
    exact ⟨c, rfl, hinv, fun pos _ => List.Perm.refl _, fun ylast h => by cases h⟩
  | cons y ys ih =>
    intro years c hys hinv
    obtain ⟨c1, hstep, hinv1, hsort1, hperm1⟩ :=
      yearStep_ok cfg c y years (hys y (by simp)) hinv
    obtain ⟨c2, hfold, hinv2, hperm2, hsort2⟩ :=
      ih years c1 (fun y2 hy2 => hys y2 (by simp [hy2])) hinv1
    refine ⟨c2, ?_, hinv2, ?_, ?_⟩
    · rw [List.foldlM_cons, hstep]
      exact hfold
    · intro pos hpos
      exact (hperm2 pos hpos).trans (hperm1 pos hpos)
    · intro ylast hlast pos hpos
      cases ys with
      | nil =>
        simp only [List.getLast?_singleton] at hlast
        cases hlast
        have : c2 = c1 := by
          rw [List.foldlM_nil] at hfold
          injection hfold with h2
          exact h2.symm
        rw [this]
        exact hsort1 pos hpos
      | cons y2 ys2 =>
        rw [List.getLast?_cons_cons] at hlast
        exact hsort2 ylast hlast pos hpos

theorem mkPlayers_ok (cfg : Config) (input : List Player)
    (hpre : ∀ p ∈ input, ∀ y ∈ collectYears input, (p.points.lookup y).isSome = true) :
    mkPlayersSpec cfg input := by
  have hinv0 : catInv (collectYears input)
      { qb := input.filter fun p => p.position == "qb"
        rb := input.filter fun p => p.position == "rb"
        wr := input.filter fun p => p.position == "wr"
        te := input.filter fun p => p.position == "te"
        dst := input.filter fun p => p.position == "dst"
        k := input.filter fun p => p.position == "k"
        players := input
        years := collectYears input } := by
    intro pos hpos p hp
    simp only [positionsList, List.mem_cons, List.not_mem_nil, or_false] at hpos
    rcases hpos with rfl | rfl | rfl | rfl | rfl | rfl <;>
      exact hpre p (List.mem_filter.mp hp).1
  obtain ⟨c2, hfold, _, hperm, hsort⟩ :=
    yearsFold_ok cfg (collectYears input) (collectYears input) _ (fun _ h => h) hinv0
  refine ⟨{ c2 with players := c2.players.map (aliasTier c2) }, ?_, ?_⟩
  · unfold mkPlayers
    dsimp only
    rw [hfold]
  · intro pos hpos
    have hgl : getPosList { c2 with players := c2.players.map (aliasTier c2) } pos
        = getPosList c2 pos := by
      simp only [positionsList, List.mem_cons, List.not_mem_nil, or_false] at hpos
      rcases hpos with rfl | rfl | rfl | rfl | rfl | rfl <;> rfl
    constructor
    · rw [hgl]
      refine (hperm pos hpos).trans ?_
      have : getPosList
          { qb := input.filter fun p => p.position == "qb"
            rb := input.filter fun p => p.position == "rb"
            wr := input.filter fun p => p.position == "wr"
            te := input.filter fun p => p.position == "te"
            dst := input.filter fun p => p.position == "dst"
            k := input.filter fun p => p.position == "k"
            players := input
            years := collectYears input } pos = input.filter fun p => p.position == pos := by
        simp only [positionsList, List.mem_cons, List.not_mem_nil, or_false] at hpos
        rcases hpos with rfl | rfl | rfl | rfl | rfl | rfl <;> rfl
      rw [this]
    · intro ylast hlast
      rw [hgl]
      exact hsort ylast hlast pos hpos

/-- C10: the catalog construction sorts every position list once per
catalog year; it succeeds whenever every player has a points entry for
every year contributed by any player, and a catalog mixing disjoint
years raises `KeyError`. -/
theorem players_construction_uniform_years :
    (∀ (cfg : Config) (input : List Player),
      (∀ p ∈ input, ∀ y ∈ collectYears input, (p.points.lookup y).isSome = true) →
      mkPlayersSpec cfg input) ∧
    ((∃ p ∈ badInput, ∃ y ∈ collectYears badInput, (p.points.lookup y).isSome = false) ∧
      mkPlayers defaultConfig badInput = .error .keyError) :=
  ⟨mkPlayers_ok, by with_unfolding_all decide⟩

/-- Witness for C10: the four-player pool `inputW` has a single year and
constructs successfully. -/
theorem players_construction_uniform_years_witness :
    (∀ p ∈ inputW, ∀ y ∈ collectYears inputW, (p.points.lookup y).isSome = true) ∧
    mkPlayersSpec cfgW inputW :=
  ⟨by with_unfolding_all decide,
   players_construction_uniform_years.1 cfgW inputW (by with_unfolding_all decide)⟩

/-! ### C3: the Monte Carlo averaging report -/

theorem mcIterationBody_shape (cfg : Config) (model : OpponentModel) (oracle : ℕ → ℕ)
    (auth : League) (pos : String) (ctr : ℕ) (sOpt : Option ℚ) (ctr2 : ℕ)
    (h : mcIterationBody cfg model oracle auth pos ctr = .ok (sOpt, ctr2)) :
    (sOpt = none → undraftedIn (getPosList auth.players pos) = [] ∧ ctr2 = ctr) ∧
    (∀ s, sOpt = some s → undraftedIn (getPosList auth.players pos) ≠ []) := by
  unfold mcIterationBody at h
  cases hgp : getPosList? auth.players pos with
  | none => rw [hgp] at h; cases h
  | some l =>
    have hl : l = getPosList auth.players pos := by
      unfold getPosList? at hgp
      split at hgp
      · injection hgp with h2; exact h2.symm
      · cases hgp
    rw [hgp] at h
    dsimp only at h
    cases hu : undraftedIn l with
    | nil =>
      rw [hu] at h
      injection h with h2
      injection h2 with h3 h4
      subst h3
      refine ⟨fun _ => ⟨(by rw [← hl]; exact hu), h4.symm⟩, ?_⟩
      intro s hs
      cases hs
    | cons best rest =>
      rw [hu] at h
      dsimp only at h
      cases hdp : draft_player cfg best.name auth with
      | error e => rw [hdp] at h; cases h
      | ok lg1 =>
        rw [hdp] at h
        dsimp only at h
        cases hsd : simulate_draft cfg lg1 model oracle ctr with
        | error e => rw [hsd] at h; cases h
        | ok pr2 =>
          rw [hsd] at h
          obtain ⟨lg2, c2⟩ := pr2
          dsimp only at h
          cases hfi : auth.teams.findIdx? (fun t => t.simulator) with
          | none => rw [hfi] at h; cases h
          | some si =>
            rw [hfi] at h
            dsimp only at h
            cases hgt : lg2.teams.get? si with
            | none => rw [hgt] at h; cases h
            | some st =>
              rw [hgt] at h
              dsimp only at h
              cases hrs : randomized_starter_points cfg st
                  auth.position_tier_distributions auth.position_max_points
                  cfg.draft_year oracle c2 with
              | error e => rw [hrs] at h; cases h
              | ok pr3 =>
                rw [hrs] at h
                obtain ⟨score, c3⟩ := pr3
                dsimp only at h
                injection h with h2
                injection h2 with h3 h4
                subst h3
                refine ⟨fun hc => (by cases hc), ?_⟩
                intro s _
                rw [← hl, hu]
                exact List.cons_ne_nil best rest

theorem lookup_dictAppend_self (acc : List (String × List ℚ)) (key : String) (v : ℚ) :
    (dictAppend acc key v).lookup key = (acc.lookup key).map (· ++ [v]) := by
  induction acc with
  | nil => rfl
  | cons kv rest ih =>
    unfold dictAppend
    by_cases hb : (kv.1 == key) = true
    · simp only [List.map_cons, if_pos hb]
      have hk : (key == kv.1) = true := by
        rw [beq_iff_eq] at hb ⊢
        exact hb.symm
      obtain ⟨k0, v0⟩ := kv
      simp only [List.lookup, hk]
      rfl
    · simp only [List.map_cons, if_neg hb]
      have hb2 : (kv.1 == key) = false := by simpa using hb
      have hk : (key == kv.1) = false := by
        rw [beq_eq_false_iff_ne] at hb2 ⊢
        exact fun hc => hb2 hc.symm
      obtain ⟨k0, v0⟩ := kv
      simp only [List.lookup, hk]
      exact ih

theorem lookup_dictAppend_ne (acc : List (String × List ℚ)) (key pos : String) (v : ℚ)
    (hne : pos ≠ key) :
    (dictAppend acc key v).lookup pos = acc.lookup pos := by
  induction acc with
  | nil => rfl
  | cons kv rest ih =>
    unfold dictAppend
    by_cases hb : (kv.1 == key) = true
    · simp only [List.map_cons, if_pos hb]
      obtain ⟨k0, v0⟩ := kv
      have hk : (pos == k0) = false := by
        rw [beq_eq_false_iff_ne]
        intro hc
        apply hne
        rw [beq_iff_eq] at hb
        rw [hc]
        exact hb
      simp only [List.lookup, hk]
      exact ih
    · simp only [List.map_cons, if_neg hb]
      obtain ⟨k0, v0⟩ := kv
      by_cases hk : (pos == k0) = true
      · simp only [List.lookup, hk]
      · simp only [List.lookup, Bool.not_eq_true] at hk
        simp only [List.lookup, hk]
        exact ih

theorem mcIteration_shape (cfg : Config) (model : OpponentModel) (oracle : ℕ → ℕ)
    (auth : League) (pos : String) (acc : List (String × List ℚ)) (i ctr : ℕ)
    (auth1 : League) (acc1 : List (String × List ℚ)) (i1 ctr1 : ℕ)
    (h : mcIteration cfg model oracle auth pos acc i ctr = .ok (auth1, acc1, i1, ctr1)) :
    auth1 = auth ∧
    ((undraftedIn (getPosList auth.players pos) = [] ∧
        acc1 = dictAppend acc pos 0 ∧ i1 = i) ∨
     (undraftedIn (getPosList auth.players pos) ≠ [] ∧
        (∃ s, acc1 = dictAppend acc pos s) ∧ i1 = i + 1)) := by
  unfold mcIteration at h
  cases hb : mcIterationBody cfg model oracle auth pos ctr with
  | error e => rw [hb] at h; cases h
  | ok pr =>
    rw [hb] at h
    obtain ⟨sOpt, c1⟩ := pr
    have hs := mcIterationBody_shape cfg model oracle auth pos ctr sOpt c1 hb
    cases sOpt with
    | none =>
      dsimp only at h
      injection h with h2
      injection h2 with h3 h4
      injection h4 with h5 h6
      injection h6 with h7 h8
      exact ⟨h3.symm, Or.inl ⟨(hs.1 rfl).1, h5.symm, h7.symm⟩⟩
    | some s =>
      dsimp only at h
      injection h with h2
      injection h2 with h3 h4
      injection h4 with h5 h6
      injection h6 with h7 h8
      exact ⟨h3.symm, Or.inr ⟨hs.2 s rfl, ⟨s, h5.symm⟩, h7.symm⟩⟩

theorem mcPass_count (cfg : Config) (model : OpponentModel) (oracle : ℕ → ℕ) :
    ∀ (tracked : List String) (auth : League) (acc : List (String × List ℚ)) (i ctr : ℕ)
      (out : League × List (String × List ℚ) × ℕ × ℕ),
      mcPass cfg model oracle tracked auth acc i ctr = .ok out →
      out.2.2.1 = i + (tracked.filter
        (fun q => !(undraftedIn (getPosList auth.players q)).isEmpty)).length := by
  intro tracked
  induction tracked with
  | nil =>
    intro auth acc i ctr out h
    unfold mcPass at h
    injection h with h2
    subst h2
    simp
  | cons q rest ih =>
    intro auth acc i ctr out h
    unfold mcPass at h
    cases hb : mcIteration cfg model oracle auth q acc i ctr with
    | error e => rw [hb] at h; cases h
    | ok pr =>
      rw [hb] at h
      obtain ⟨auth1, acc1, i1, ctr1⟩ := pr
      dsimp only at h
      obtain ⟨hauth, hdisj⟩ := mcIteration_shape cfg model oracle auth q acc i ctr
        auth1 acc1 i1 ctr1 hb
      subst hauth
      have hrest := ih auth1 acc1 i1 ctr1 out h
      rcases hdisj with ⟨hemp, _, hio⟩ | ⟨hne, _, hio⟩
      · rw [List.filter_cons, if_neg (by simp [List.isEmpty_iff, hemp])]
        rw [hrest, hio]
      · rw [List.filter_cons, if_pos (by simp [List.isEmpty_iff, hne])]
        rw [hrest, hio]
        simp only [List.length_cons]
        omega

theorem mcPass_lookup_preserve (cfg : Config) (model : OpponentModel) (oracle : ℕ → ℕ) :
    ∀ (tracked : List String) (pos : String) (auth : League)
      (acc : List (String × List ℚ)) (i ctr : ℕ)
      (out : League × List (String × List ℚ) × ℕ × ℕ),
      pos ∉ tracked →
      mcPass cfg model oracle tracked auth acc i ctr = .ok out →
      out.2.1.lookup pos = acc.lookup pos := by
  intro tracked
  induction tracked with
  | nil =>
    intro pos auth acc i ctr out _ h
    unfold mcPass at h
    injection h with h2
    subst h2
    rfl
  | cons q rest ih =>
    intro pos auth acc i ctr out hnm h
    unfold mcPass at h
    cases hb : mcIteration cfg model oracle auth q acc i ctr with
    | error e => rw [hb] at h; cases h
    | ok pr =>
      rw [hb] at h
      obtain ⟨auth1, acc1, i1, ctr1⟩ := pr
      dsimp only at h
      obtain ⟨hauth, hdisj⟩ := mcIteration_shape cfg model oracle auth q acc i ctr
        auth1 acc1 i1 ctr1 hb
      have hq : pos ≠ q := fun hc => hnm (by rw [hc]; exact List.mem_cons_self q rest)
      have hacc : acc1.lookup pos = acc.lookup pos := by
        rcases hdisj with ⟨_, ha, _⟩ | ⟨_, ⟨s, ha⟩, _⟩ <;>
          (rw [ha]; exact lookup_dictAppend_ne acc q pos _ hq)
      rw [ih pos auth1 acc1 i1 ctr1 out (fun hc => hnm (List.mem_cons_of_mem q hc)) h]
      exact hacc

theorem mcPass_lookup_empty (cfg : Config) (model : OpponentModel) (oracle : ℕ → ℕ) :
    ∀ (tracked : List String) (pos : String) (auth : League)
      (acc : List (String × List ℚ)) (i ctr : ℕ)
      (out : League × List (String × List ℚ) × ℕ × ℕ),
      tracked.Nodup → pos ∈ tracked →
      undraftedIn (getPosList auth.players pos) = [] →
      mcPass cfg model oracle tracked auth acc i ctr = .ok out →
      out.2.1.lookup pos = (acc.lookup pos).map (· ++ [0]) := by
  intro tracked
  induction tracked with
  | nil =>
    intro pos auth acc i ctr out _ hmem
    cases hmem
  | cons q rest ih =>
    intro pos auth acc i ctr out hnd hmem hemp h
    unfold mcPass at h
    cases hb : mcIteration cfg model oracle auth q acc i ctr with
    | error e => rw [hb] at h; cases h
    | ok pr =>
      rw [hb] at h
      obtain ⟨auth1, acc1, i1, ctr1⟩ := pr
      dsimp only at h
      obtain ⟨hauth, hdisj⟩ := mcIteration_shape cfg model oracle auth q acc i ctr
        auth1 acc1 i1 ctr1 hb
      subst hauth
      rcases List.mem_cons.mp hmem with rfl | hrest
      · have hnin : pos ∉ rest := (List.nodup_cons.mp hnd).1
        have hacc : acc1 = dictAppend acc pos 0 := by
          rcases hdisj with ⟨_, ha, _⟩ | ⟨hne, _, _⟩
          · exact ha
          · exact absurd hemp hne
        rw [mcPass_lookup_preserve cfg model oracle rest pos auth1 acc1 i1 ctr1 out hnin h,
          hacc]
        exact lookup_dictAppend_self acc pos 0
      · have hq : q ≠ pos := by
          intro hc
          exact (List.nodup_cons.mp hnd).1 (hc ▸ hrest)
        have hacc : acc1.lookup pos = acc.lookup pos := by
          rcases hdisj with ⟨_, ha, _⟩ | ⟨_, ⟨s, ha⟩, _⟩ <;>
            (rw [ha]; exact lookup_dictAppend_ne acc q pos _ (fun hc => hq hc.symm))
        rw [ih pos auth1 acc1 i1 ctr1 out (List.nodup_cons.mp hnd).2 hrest hemp h, hacc]

theorem mcLoop_count (cfg : Config) (model : OpponentModel) (oracle : ℕ → ℕ)
    (tracked : List String) :
    ∀ (n : ℕ) (auth : League) (acc : List (String × List ℚ)) (i ctr : ℕ)
      (out : League × List (String × List ℚ) × ℕ × ℕ),
      mcLoop cfg model oracle tracked n auth acc i ctr = .ok out →
      out.2.2.1 = i + n * (tracked.filter
        (fun q => !(undraftedIn (getPosList auth.players q)).isEmpty)).length := by
  intro n
  induction n with
  | zero =>
    intro auth acc i ctr out h
    unfold mcLoop at h
    injection h with h2
    subst h2
    simp
  | succ n ih =>
    intro auth acc i ctr out h
    unfold mcLoop at h
    cases hb : mcPass cfg model oracle tracked auth acc i ctr with
    | error e => rw [hb] at h; cases h
    | ok pr =>
      rw [hb] at h
      obtain ⟨auth1, acc1, i1, ctr1⟩ := pr
      dsimp only at h
      have hauth : auth1 = auth := mcPass_auth cfg model oracle tracked auth acc i ctr _ hb
      have h1 : i1 = i + (tracked.filter
          (fun q => !(undraftedIn (getPosList auth.players q)).isEmpty)).length :=
        mcPass_count cfg model oracle tracked auth acc i ctr _ hb
      subst hauth
      have h2 := ih auth1 acc1 i1 ctr1 out h
      rw [h2, h1]
      ring

theorem mcLoop_lookup_empty (cfg : Config) (model : OpponentModel) (oracle : ℕ → ℕ)
    (tracked : List String) (pos : String) (hnd : tracked.Nodup) (hmem : pos ∈ tracked) :
    ∀ (n : ℕ) (auth : League) (acc : List (String × List ℚ)) (i ctr : ℕ)
      (out : League × List (String × List ℚ) × ℕ × ℕ),
      undraftedIn (getPosList auth.players pos) = [] →
      mcLoop cfg model oracle tracked n auth acc i ctr = .ok out →
      out.2.1.lookup pos = (acc.lookup pos).map (· ++ List.replicate n 0) := by
  intro n
  induction n with
  | zero =>
    intro auth acc i ctr out _ h
    unfold mcLoop at h
    injection h with h2
    subst h2
    cases hlv : acc.lookup pos with
    | none => rfl
    | some l0 => simp
  | succ n ih =>
    intro auth acc i ctr out hemp h
    unfold mcLoop at h
    cases hb : mcPass cfg model oracle tracked auth acc i ctr with
    | error e => rw [hb] at h; cases h
    | ok pr =>
      rw [hb] at h
      obtain ⟨auth1, acc1, i1, ctr1⟩ := pr
      dsimp only at h
      have hauth : auth1 = auth := mcPass_auth cfg model oracle tracked auth acc i ctr _ hb
      subst hauth
      have hpass : acc1.lookup pos = (acc.lookup pos).map (· ++ [0]) :=
        mcPass_lookup_empty cfg model oracle tracked pos auth1 acc i ctr
          (auth1, acc1, i1, ctr1) hnd hmem hemp hb
      rw [ih auth1 acc1 i1 ctr1 out hemp h, hpass]
      cases hlv : acc.lookup pos with
      | none => rfl
      | some l0 =>
        show some (l0 ++ [0] ++ List.replicate n 0) = some (l0 ++ List.replicate (n + 1) 0)
        rw [List.append_assoc]
        rfl

theorem mcReport_spec :
    ∀ (raw : List (String × List ℚ)) (rep : List (String × ℚ)),
      mcReport raw = .ok rep →
      rep = raw.map (fun kv => (kv.1, round2 (kv.2.sum / (kv.2.length : ℚ)))) ∧
      ∀ kv ∈ raw, kv.2 ≠ [] := by
  intro raw
  induction raw with
  | nil =>
    intro rep h
    unfold mcReport at h
    injection h with h2
    subst h2
    exact ⟨rfl, by simp⟩
  | cons kv rest ih =>
    intro rep h
    obtain ⟨key, l⟩ := kv
    unfold mcReport at h
    split at h
    · cases h
    · next hlen =>
      cases hr : mcReport rest with
      | error e => rw [hr] at h; cases h
      | ok r =>
        rw [hr] at h
        dsimp only at h
        injection h with h2
        subst h2
        obtain ⟨hre, hne⟩ := ih r hr
        refine ⟨(by simp only [List.map_cons]; rw [← hre]), ?_⟩
        intro kv2 hkv2
        rcases List.mem_cons.mp hkv2 with rfl | hm
        · exact fun hc => hlen (by rw [show l = [] from hc]; rfl)
        · exact hne kv2 hm

theorem lookup_map_snd (g : List ℚ → ℚ) (pos : String) :
    ∀ (raw : List (String × List ℚ)),
      ((raw.map fun kv => (kv.1, g kv.2)).lookup pos) = (raw.lookup pos).map g := by
  intro raw
  induction raw with
  | nil => rfl
  | cons kv rest ih =>
    obtain ⟨k0, v0⟩ := kv
    by_cases hk : (pos == k0) = true
    · simp only [List.map_cons, List.lookup, hk]
      rfl
    · simp only [List.lookup, Bool.not_eq_true] at hk
      simp only [List.map_cons, List.lookup, hk]
      exact ih

theorem lookup_init (pos : String) :
    ∀ (tracked : List String), pos ∈ tracked →
      ((tracked.map fun q => (q, ([] : List ℚ))).lookup pos) = some [] := by
  intro tracked
  induction tracked with
  | nil => intro h; cases h
  | cons q rest ih =>
    intro hmem
    by_cases hk : (pos == q) = true
    · simp only [List.map_cons, List.lookup, hk]
    · simp only [Bool.not_eq_true] at hk
      simp only [List.map_cons, List.lookup, hk]
      apply ih
      rcases List.mem_cons.mp hmem with rfl | hm
      · rw [beq_self_eq_true] at hk; cases hk
      · exact hm

theorem trackedPositions_nodup (cfg : Config) (l : League) :
    (trackedPositions cfg l).Nodup := by
  unfold trackedPositions
  split <;> decide

theorem trackedPositions_sub (cfg : Config) (l : League) :
    ∀ pos ∈ trackedPositions cfg l, pos ∈ positionsList := by
  unfold trackedPositions
  split <;> decide

/-- C3: a successful `monte_carlo_draft` run reports, for every tracked
position, the 2-decimal-rounded arithmetic mean of exactly the scores
recorded for it; positions with no undrafted players record a 0 per pass
without consuming an iteration slot and report 0; the iteration count
equals passes × (number of tracked positions with available players). -/
theorem monte_carlo_report_spec (cfg : Config) (league : League)
    (model : OpponentModel) (oracle : ℕ → ℕ) (passes : ℕ)
    (rep : List (String × ℚ)) (iters : ℕ)
    (h : (monte_carlo_draft cfg league model oracle passes).1 = .ok (rep, iters))
    (_hp : 1 ≤ passes) :
    c3Spec cfg league model oracle passes rep iters := by
  unfold monte_carlo_draft at h
  dsimp only at h
  cases hl : mcLoop cfg model oracle (trackedPositions cfg league) passes league
      ((trackedPositions cfg league).map fun pos => (pos, ([] : List ℚ))) 0 0 with
  | error e => rw [hl] at h; cases h
  | ok out =>
    obtain ⟨auth, raw, i, c⟩ := out
    have hauth : auth = league :=
      mcLoop_auth cfg model oracle (trackedPositions cfg league) passes league _ 0 0 _ hl
    subst hauth
    rw [hl] at h
    dsimp only at h
    cases hr : mcReport raw with
    | error e => rw [hr] at h; cases h
    | ok rep0 =>
      rw [hr] at h
      dsimp only at h
      injection h with h2
      injection h2 with h3 h4
      subst h3
      subst h4
      obtain ⟨hrep, hne⟩ := mcReport_spec raw rep0 hr
      refine ⟨raw, c, hl, hrep, hne, ?_, ?_⟩
      · intro pos hpos hemp
        have hraw0 := mcLoop_lookup_empty cfg model oracle (trackedPositions cfg auth)
          pos (trackedPositions_nodup cfg auth) hpos passes auth
          ((trackedPositions cfg auth).map fun q => (q, ([] : List ℚ))) 0 0
          (auth, raw, i, c) hemp hl
        rw [lookup_init pos _ hpos] at hraw0
        have hraw : raw.lookup pos = some (List.replicate passes 0) := by
          simpa using hraw0
        refine ⟨hraw, ?_⟩
        rw [hrep, lookup_map_snd (fun l => round2 (l.sum / (l.length : ℚ))) pos raw, hraw]
        simp [List.sum_replicate, round2_zero]
      · have hcount := mcLoop_count cfg model oracle (trackedPositions cfg auth) passes
          auth ((trackedPositions cfg auth).map fun q => (q, ([] : List ℚ))) 0 0
          (auth, raw, i, c) hl
        simpa using hcount

/-- Witness for C3: one pass over the pool `inputW` (which has no tight
ends) reports qb 20, rb 15, wr 12, te 0 with 3 real iterations. -/
theorem monte_carlo_report_spec_witness :
    ((monte_carlo_draft cfgW lgW modelQBonly oracleW 1).1 =
      .ok ([("qb", (20 : ℚ)), ("rb", 15), ("wr", 12), ("te", 0)], 3)) ∧
    1 ≤ 1 ∧
    c3Spec cfgW lgW modelQBonly oracleW 1
      [("qb", (20 : ℚ)), ("rb", 15), ("wr", 12), ("te", 0)] 3 :=
  ⟨by with_unfolding_all decide, le_refl 1,
   monte_carlo_report_spec cfgW lgW modelQBonly oracleW 1
     [("qb", (20 : ℚ)), ("rb", 15), ("wr", 12), ("te", 0)] 3
     (by with_unfolding_all decide) (le_refl 1)⟩

end FFDraft
